import Mathlib

/-!
Formal model of the Food-Sustainability extraction pipeline's write path
(`pipeline/mysql_writer.py`) and its ingredient canonicalizer
(`pipeline/ingredients.py`), with proofs of the specification's claims.

Python strings are modelled as lists of Unicode code points (`List Nat`),
Python floats as rationals, and the MySQL store as an explicit state record
threaded through the statements that `write_run` issues, in source order.
-/

namespace FoodPipeline

/-- Python strings, as lists of code points. -/
abbrev PyStr := List Nat

/-- Code points matched by Python's `\s` and stripped by `str.strip()`
(ASCII range). -/
def isSpace (c : Nat) : Bool :=
  c == 32 || c == 9 || c == 10 || c == 13 || c == 11 || c == 12

/-- The trailing-punctuation set `[.,;:!?]` used by `canonicalize_ingredient`. -/
def isPunct (c : Nat) : Bool :=
  c == 46 || c == 44 || c == 59 || c == 58 || c == 33 || c == 63

/-- ASCII lowercasing, as `str.lower()` acts on ASCII text. -/
def lowerChar (c : Nat) : Nat := if 65 ≤ c && c ≤ 90 then c + 32 else c

/-- ASCII uppercasing of a lowercase letter, as used by `str.title()`. -/
def upperChar (c : Nat) : Nat := if 97 ≤ c && c ≤ 122 then c - 32 else c

/-- ASCII alphabetic test, the word-boundary notion of `str.title()`. -/
def isAlpha (c : Nat) : Bool := (65 ≤ c && c ≤ 90) || (97 ≤ c && c ≤ 122)

/-- Python's `str.strip()`: drop whitespace from both ends. -/
def pyStrip (l : PyStr) : PyStr :=
  ((l.dropWhile isSpace).reverse.dropWhile isSpace).reverse

/-- Python's `re.sub(r"\s+", " ", s)`: every maximal run of whitespace becomes
one space (code point 32).  The Boolean flag records whether the previous
character was whitespace. -/
def collapseWs : Bool → PyStr → PyStr
  | _, [] => []
  | prevSp, c :: cs =>
    if isSpace c then
      if prevSp then collapseWs true cs else 32 :: collapseWs true cs
    else c :: collapseWs false cs

/-- Python's `re.sub(r"[.,;:!?]+$", "", s)`: remove the maximal run of
punctuation characters at the very end of the string. -/
def stripTrailingPunct (l : PyStr) : PyStr :=
  (l.reverse.dropWhile isPunct).reverse

/-- Function `canonicalize_ingredient` of `pipeline/ingredients.py`.
The argument `none` models a `None` or non-string value, rejected by the
source's `if not name or not isinstance(name, str)` guard; `some []` models
the empty string (also falsy).  Steps, in source order: strip, lowercase,
collapse whitespace runs, strip one trailing punctuation run, strip again. -/
def canonicalize_ingredient : Option PyStr → PyStr
  | none => []
  | some l =>
    if l.isEmpty then []
    else pyStrip (stripTrailingPunct (collapseWs false (List.map lowerChar (pyStrip l))))

/-- Python's `str.title()` on ASCII text: the first letter after a
non-alphabetic character is uppercased, subsequent letters lowercased. -/
def pyTitle : Bool → PyStr → PyStr
  | _, [] => []
  | prev, c :: cs =>
    (if isAlpha c then (if prev then lowerChar c else upperChar c) else c)
      :: pyTitle (isAlpha c) cs

/-- Function `display_name_for_ingredient` of `pipeline/ingredients.py`:
`name.strip().title()`, with the same falsy/non-string guard. -/
def display_name_for_ingredient : Option PyStr → PyStr
  | none => []
  | some l => if l.isEmpty then [] else pyTitle false (pyStrip l)

/-- Embed a Lean string literal as a Python string (its code points). -/
def pyOfString (s : String) : PyStr := s.toList.map Char.toNat

/-! ## The store

The six MySQL tables written by `write_run`, as explicit lists of rows.
Modelled from the spec: the table schema itself is not part of `src/`; keys
and uniqueness constraints follow §3 of the specification — `extraction_runs`
keyed by generated `run_id`, `restaurants` by `restaurant_id`, `menu_items`
by `item_id`, `ingredients` by unique `canonical_name` with generated
`ingredient_id`, `menu_item_ingredient_observations` by
`(run_id, item_id, ingredient_id)`, and `menu_item_ingredients` by
`(item_id, ingredient_id)`. -/

/-- One `extraction_runs` row. -/
structure RunRow where
  run_id : Nat
  model_name : Option PyStr
  prompt_version : Option PyStr
  pipeline_version : Option PyStr
deriving DecidableEq, Repr

/-- One `restaurants` row. -/
structure RestaurantRow where
  restaurant_id : Int
  name : Option PyStr
  updated_at : Nat
deriving DecidableEq, Repr

/-- One `menu_items` row. -/
structure MenuItemRow where
  item_id : Int
  restaurant_id : Int
  item_name : PyStr
  reasoning : Option PyStr
  updated_at : Nat
deriving DecidableEq, Repr

/-- One `ingredients` row. -/
structure IngredientRow where
  ingredient_id : Nat
  canonical_name : PyStr
  display_name : PyStr
deriving DecidableEq, Repr

/-- One `menu_item_ingredient_observations` row. -/
structure ObservationRow where
  run_id : Nat
  item_id : Int
  ingredient_id : Nat
  confidence : ℚ
  created_at : Nat
deriving DecidableEq, Repr

/-- One `menu_item_ingredients` (current snapshot) row. -/
structure LinkRow where
  item_id : Int
  ingredient_id : Nat
  confidence : ℚ
deriving DecidableEq, Repr

/-- The whole store.  `nextRunId` and `nextIngId` are the AUTO_INCREMENT
counters of `extraction_runs` and `ingredients`; `CURRENT_TIMESTAMP` is an
explicit `now : Nat` argument of each writing operation. -/
structure State where
  nextRunId : Nat
  nextIngId : Nat
  runs : List RunRow
  restaurants : List RestaurantRow
  menuItems : List MenuItemRow
  ingredients : List IngredientRow
  observations : List ObservationRow
  links : List LinkRow
deriving DecidableEq, Repr

/-- Errors surfaced by the write path: `ValueError` from `int()`/`float()`,
the `RuntimeError` raised on a failed ingredient-id resolution, and a
duplicate-key `IntegrityError` from a plain INSERT on an existing key. -/
inductive DbError
  | valueError
  | runtimeError
  | duplicateKey
deriving DecidableEq, Repr

/-- A value fed to Python's `int()`: either it parses to an integer or the
call raises. -/
inductive PyKey
  | int (n : Int)
  | bad
deriving DecidableEq, Repr

/-- A value fed to Python's `float()`: either it coerces to a float (here a
rational) or the call raises. -/
inductive PyNum
  | num (q : ℚ)
  | bad
deriving DecidableEq, Repr

/-- Python's `int(x)` on a result identifier. -/
def pyInt : PyKey → Except DbError Int
  | .int n => .ok n
  | .bad => .error .valueError

/-- Python's `float(ing.get("confidence", 0))`: a missing key (`none`)
defaults to `0`; a non-coercible value raises. -/
def pyFloat : Option PyNum → Except DbError ℚ
  | none => .ok 0
  | some (.num q) => .ok q
  | some .bad => .error .valueError

/-- Python's `round(x, 3)`, over rationals: the nearest multiple of `1/1000`
(the source rounds IEEE doubles; tie-breaking never matters for the claims).
Written with integer floor division so that it evaluates by `decide`;
`round3_eq_round` below shows it is rounding of `q * 1000`. -/
def round3 (q : ℚ) : ℚ :=
  mkRat ((2 * (q.num * 1000) + q.den) / (2 * q.den)) 1000

/-- One entry of a result's `ingredients` list.  `name = none` models a
missing/`None`/falsy name (the source's `ing.get("name") or ""`);
`confidence = none` models a missing `confidence` key. -/
structure IngredientEntry where
  name : Option PyStr
  confidence : Option PyNum
deriving DecidableEq, Repr

/-- One extraction result from the batch handed to `write_run`. -/
structure ExtractionResult where
  item_id : PyKey
  restaurant_id : PyKey
  item_name : Option PyStr
  reasoning : Option PyStr
  ingredients : Option (List IngredientEntry)
deriving DecidableEq, Repr

/-- Statement 2 of `write_run`: `INSERT INTO restaurants (restaurant_id, name)
VALUES (%s, NULL) ON DUPLICATE KEY UPDATE updated_at = CURRENT_TIMESTAMP`. -/
def upsertRestaurant (st : State) (rid : Int) (now : Nat) : State :=
  if st.restaurants.any (fun r => r.restaurant_id == rid) then
    { st with restaurants :=
        st.restaurants.map (fun r =>
          if r.restaurant_id == rid then { r with updated_at := now } else r) }
  else
    { st with restaurants :=
        st.restaurants ++ [{ restaurant_id := rid, name := none, updated_at := now }] }

/-- Statement 3 of `write_run`: upsert into `menu_items`, overwriting
`restaurant_id`, `item_name`, `reasoning` and refreshing `updated_at`. -/
def upsertMenuItem (st : State) (iid rid : Int) (iname : PyStr)
    (reasoning : Option PyStr) (now : Nat) : State :=
  if st.menuItems.any (fun r => r.item_id == iid) then
    { st with menuItems :=
        st.menuItems.map (fun r =>
          if r.item_id == iid then
            { r with restaurant_id := rid, item_name := iname,
                     reasoning := reasoning, updated_at := now }
          else r) }
  else
    { st with menuItems :=
        st.menuItems ++ [{ item_id := iid, restaurant_id := rid,
                           item_name := iname, reasoning := reasoning,
                           updated_at := now }] }

/-- Statement 4 of `write_run`: `INSERT INTO ingredients (canonical_name,
display_name) VALUES (%s, %s) ON DUPLICATE KEY UPDATE display_name =
VALUES(display_name)`. -/
def upsertIngredient (st : State) (canonical display : PyStr) : State :=
  if st.ingredients.any (fun r => r.canonical_name == canonical) then
    { st with ingredients :=
        st.ingredients.map (fun r =>
          if r.canonical_name == canonical then { r with display_name := display } else r) }
  else
    { st with
        ingredients := st.ingredients ++
          [{ ingredient_id := st.nextIngId, canonical_name := canonical,
             display_name := display }],
        nextIngId := st.nextIngId + 1 }

/-- The `SELECT ingredient_id FROM ingredients WHERE canonical_name = %s`
lookup following the ingredient upsert. -/
def lookupIngredient (st : State) (canonical : PyStr) : Option IngredientRow :=
  st.ingredients.find? (fun r => r.canonical_name == canonical)

/-- The canonical-name-to-id map the store realizes. -/
def resolveId (st : State) (canonical : PyStr) : Option Nat :=
  (lookupIngredient st canonical).map (fun r => r.ingredient_id)

/-- Statement 5 of `write_run`: upsert into
`menu_item_ingredient_observations`, keyed by `(run_id, item_id,
ingredient_id)`; on conflict the confidence and `created_at` are updated. -/
def upsertObservation (st : State) (runId : Nat) (iid : Int) (gid : Nat)
    (conf : ℚ) (now : Nat) : State :=
  if st.observations.any (fun o =>
      o.run_id == runId && o.item_id == iid && o.ingredient_id == gid) then
    { st with observations :=
        st.observations.map (fun o =>
          if o.run_id == runId && o.item_id == iid && o.ingredient_id == gid then
            { o with confidence := conf, created_at := now }
          else o) }
  else
    { st with observations :=
        st.observations ++ [{ run_id := runId, item_id := iid,
                              ingredient_id := gid, confidence := conf,
                              created_at := now }] }

/-- Statement 6a of `write_run`:
`DELETE FROM menu_item_ingredients WHERE item_id = %s`. -/
def deleteLinks (st : State) (iid : Int) : State :=
  { st with links := st.links.filter (fun l => !(l.item_id == iid)) }

/-- Statement 6b of `write_run`: a plain `INSERT INTO menu_item_ingredients`.
Modelled from the spec: the table's key `(item_id, ingredient_id)` (§3) is
schema outside `src/`; inserting an existing key raises a duplicate-key
error, as a plain INSERT does on a keyed table. -/
def insertLink (st : State) (iid : Int) (gid : Nat) (conf : ℚ) :
    Except DbError State :=
  if st.links.any (fun l => l.item_id == iid && l.ingredient_id == gid) then
    .error .duplicateKey
  else
    .ok { st with links := st.links ++ [{ item_id := iid, ingredient_id := gid,
                                          confidence := conf }] }

/-- Error-propagating left fold: the Python `for` loops, which re-raise the
first error. -/
def foldE {σ α : Type} (f : σ → α → Except DbError σ) : σ → List α → Except DbError σ
  | s, [] => .ok s
  | s, a :: l =>
    match f s a with
    | .ok s' => foldE f s' l
    | .error e => .error e

/-- The body of the `for ing in ingredient_rows` loop of `write_run`
(lines 126-163 of `pipeline/mysql_writer.py`): skip falsy or
whitespace-only names, coerce and clamp the confidence, canonicalize, skip
empty canonical keys, upsert the ingredient, resolve its id (RuntimeError on
failure), record it in the per-item accumulator, upsert the observation. -/
def processIngredient (runId : Nat) (itemId : Int) (now : Nat)
    (acc : State × List (Nat × ℚ)) (ing : IngredientEntry) :
    Except DbError (State × List (Nat × ℚ)) :=
  let name := pyStrip (ing.name.getD [])
  if name.isEmpty then .ok acc
  else
    match pyFloat ing.confidence with
    | .error e => .error e
    | .ok q =>
      let conf := max 0 (min 1 q)
      let canonical := canonicalize_ingredient (some name)
      let display := display_name_for_ingredient (some name)
      if canonical.isEmpty then .ok acc
      else
        let st := upsertIngredient acc.1 canonical display
        match lookupIngredient st canonical with
        | none => .error .runtimeError
        | some row =>
          .ok (upsertObservation st runId itemId row.ingredient_id (round3 conf) now,
               acc.2 ++ [(row.ingredient_id, conf)])

/-- The link insertion of step 6 of `write_run`, with the source's
`round(conf, 3)`. -/
def insertLinkRounded (iid : Int) (st : State) (p : Nat × ℚ) :
    Except DbError State :=
  insertLink st iid p.1 (round3 p.2)

/-- The body of the `for item in results` loop of `write_run` (lines 90-174):
parse identifiers, upsert restaurant and menu item, process the ingredient
list, then delete and re-insert the item's current snapshot links. -/
def processResult (runId : Nat) (now : Nat) (st : State)
    (item : ExtractionResult) : Except DbError State :=
  match pyInt item.item_id with
  | .error e => .error e
  | .ok itemId =>
    match pyInt item.restaurant_id with
    | .error e => .error e
    | .ok restaurantId =>
      let st1 := upsertRestaurant st restaurantId now
      let st2 := upsertMenuItem st1 itemId restaurantId (item.item_name.getD [])
                    item.reasoning now
      match foldE (processIngredient runId itemId now) (st2, [])
              (item.ingredients.getD []) with
      | .error e => .error e
      | .ok (st3, seen) =>
        foldE (insertLinkRounded itemId) (deleteLinks st3 itemId) seen

/-- The ambient `config.py` module read by `_get_pipeline_config`:
`PROMPT_VERSION` and `PIPELINE_VERSION`, each possibly unset (and both
`none` when the module is absent). -/
structure AmbientConfig where
  prompt_version : Option PyStr
  pipeline_version : Option PyStr
deriving DecidableEq, Repr

/-- Statement 1 of `write_run`: insert the `extraction_runs` row and
capture the generated `run_id` (the counter value). -/
def insertRunRow (st : State) (mn pv plv : Option PyStr) : State :=
  { st with
      nextRunId := st.nextRunId + 1,
      runs := st.runs ++ [{ run_id := st.nextRunId, model_name := mn,
                            prompt_version := pv, pipeline_version := plv }] }

/-- Function `write_run` of `pipeline/mysql_writer.py`: fall back to the
ambient config for version strings passed as `None` (`Option.or` is exactly
the source's `if prompt_version is None` substitution), insert the
`extraction_runs` row, process every result in order, return the generated
`run_id`.  The caller commits or rolls back. -/
def write_run (ambient : AmbientConfig) (st : State)
    (results : List ExtractionResult)
    (model_name prompt_version pipeline_version : Option PyStr)
    (now : Nat) : Except DbError (Nat × State) :=
  match foldE (processResult st.nextRunId now)
      (insertRunRow st model_name (prompt_version.or ambient.prompt_version)
        (pipeline_version.or ambient.pipeline_version)) results with
  | .error e => .error e
  | .ok st2 => .ok (st.nextRunId, st2)

instance {ε α : Type} [DecidableEq ε] [DecidableEq α] :
    DecidableEq (Except ε α) := fun a b =>
  match a, b with
  | .ok x, .ok y =>
    if h : x = y then isTrue (by rw [h]) else isFalse (by intro hh; cases hh; exact h rfl)
  | .error e, .error f =>
    if h : e = f then isTrue (by rw [h]) else isFalse (by intro hh; cases hh; exact h rfl)
  | .ok _, .error _ => isFalse (by intro hh; cases hh)
  | .error _, .ok _ => isFalse (by intro hh; cases hh)

/-- The outcome of `run_with_transaction`: the returned-or-raised value, the
store state visible to readers after the call, and whether the connection
was closed. -/
structure TxnOutcome where
  result : Except DbError Nat
  committed : State
  closed : Bool
deriving DecidableEq, Repr

/-- Function `run_with_transaction` of `pipeline/mysql_writer.py`: run
`write_run` in one transaction; commit on success, roll back (restoring the
pre-call store) and re-raise the original error on failure; the `finally`
closes the connection on every path. -/
def run_with_transaction (ambient : AmbientConfig) (st0 : State)
    (results : List ExtractionResult)
    (model_name prompt_version pipeline_version : Option PyStr)
    (now : Nat) : TxnOutcome :=
  match write_run ambient st0 results model_name prompt_version pipeline_version now with
  | .ok (runId, st) => { result := .ok runId, committed := st, closed := true }
  | .error e => { result := .error e, committed := st0, closed := true }

/-! ## Derived notions used to state the claims -/

/-- The result carries this `item_id` (its identifier parses to it). -/
def carries (r : ExtractionResult) (iid : Int) : Bool :=
  r.item_id == PyKey.int iid

/-- The last result of the batch carrying the given `item_id`. -/
def lastFor (results : List ExtractionResult) (iid : Int) :
    Option ExtractionResult :=
  (results.filter (fun r => carries r iid)).getLast?

/-- The stripped raw name of an entry, as the source computes it. -/
def rawName (e : IngredientEntry) : PyStr := pyStrip (e.name.getD [])

/-- The canonical key of an entry. -/
def canonOf (e : IngredientEntry) : PyStr :=
  canonicalize_ingredient (some (rawName e))

/-- The entry survives both skip checks and is persisted. -/
def keptB (e : IngredientEntry) : Bool :=
  !(rawName e).isEmpty && !(canonOf e).isEmpty

/-- The persisted entries of an entry list, in order. -/
def keptList (entries : List IngredientEntry) : List IngredientEntry :=
  entries.filter keptB

/-- The persisted entries of a result. -/
def keptEntries (r : ExtractionResult) : List IngredientEntry :=
  keptList (r.ingredients.getD [])

/-- The rational value `float()` yields for an entry's confidence when it
does not raise (missing key: 0). -/
def confQ (e : IngredientEntry) : ℚ :=
  match e.confidence with
  | none => 0
  | some (.num q) => q
  | some .bad => 0

/-- The source's clamp `max(0.0, min(1.0, conf))`. -/
def clamp01 (q : ℚ) : ℚ := max 0 (min 1 q)

/-- The snapshot rows a result should leave for its item, resolving
ingredient ids in the given (final) store state. -/
def expectedLinkRows (st : State) (iid : Int) (r : ExtractionResult) :
    List LinkRow :=
  (keptEntries r).map (fun e =>
    { item_id := iid, ingredient_id := (resolveId st (canonOf e)).getD 0,
      confidence := round3 (clamp01 (confQ e)) })

/-- A confidence as stored: some input, clamped to `[0,1]` then rounded to
three decimals. -/
def storedConf (c : ℚ) : Prop := ∃ q : ℚ, c = round3 (clamp01 q)

/-- The snapshot rows currently present for an item. -/
def linksFor (st : State) (iid : Int) : List LinkRow :=
  st.links.filter (fun l => l.item_id == iid)

/-- The observation rows of one run. -/
def obsForRun (st : State) (runId : Nat) : List ObservationRow :=
  st.observations.filter (fun o => o.run_id == runId)

/-- An empty store. -/
def emptyState : State :=
  { nextRunId := 1, nextIngId := 1, runs := [], restaurants := [],
    menuItems := [], ingredients := [], observations := [], links := [] }

/-! ## Basic facts about the arithmetic model -/

/-- The executable `round3` is rounding of `q * 1000`, divided back by 1000. -/
theorem round3_eq_round (q : ℚ) :
    round3 q = ((round (q * 1000) : ℤ) : ℚ) / 1000 := by
  have hden : ((q.den : ℚ)) ≠ 0 := Nat.cast_ne_zero.mpr q.den_nz
  have hnum : (q.num : ℚ) = q * (q.den : ℚ) := (div_eq_iff hden).mp (Rat.num_div_den q)
  have key : q * 1000 + 1/2
      = ((2 * (q.num * 1000) + q.den : ℤ) : ℚ) / ((2 * q.den : ℕ) : ℚ) := by
    push_cast
    field_simp
    rw [hnum]
    ring
  rw [round3, Rat.mkRat_eq_div, round_eq, key, Rat.floor_intCast_div_natCast]
  push_cast
  ring_nf


/-! ## Canonicalizer lemmas -/


theorem isSpace_lowerChar (c : Nat) : isSpace (lowerChar c) = isSpace c := by
  unfold lowerChar
  split
  · rename_i h
    simp only [Bool.and_eq_true, decide_eq_true_eq] at h
    rw [Bool.eq_iff_iff]
    simp only [isSpace, Bool.or_eq_true, beq_iff_eq]
    omega
  · rfl

theorem lowerChar_of_isSpace {c : Nat} (h : isSpace c = true) : lowerChar c = c := by
  simp only [isSpace, Bool.or_eq_true, beq_iff_eq] at h
  unfold lowerChar
  split
  · rename_i hc
    simp only [Bool.and_eq_true, decide_eq_true_eq] at hc
    omega
  · rfl

theorem lowerChar_of_isPunct {c : Nat} (h : isPunct c = true) : lowerChar c = c := by
  simp only [isPunct, Bool.or_eq_true, beq_iff_eq] at h
  unfold lowerChar
  split
  · rename_i hc
    simp only [Bool.and_eq_true, decide_eq_true_eq] at hc
    omega
  · rfl

theorem not_isSpace_of_isPunct {c : Nat} (h : isPunct c = true) : isSpace c = false := by
  simp only [isPunct, Bool.or_eq_true, beq_iff_eq] at h
  rw [Bool.eq_false_iff]
  intro hs
  simp only [isSpace, Bool.or_eq_true, beq_iff_eq] at hs
  omega

theorem map_lowerChar_allSpace {w : PyStr} (h : ∀ c ∈ w, isSpace c = true) :
    w.map lowerChar = w := by
  induction w with
  | nil => rfl
  | cons c cs ih =>
    simp only [List.map_cons, List.cons.injEq]
    exact ⟨lowerChar_of_isSpace (h c (by simp)),
           ih (fun x hx => h x (by simp [hx]))⟩

theorem map_lowerChar_allPunct {p : PyStr} (h : ∀ c ∈ p, isPunct c = true) :
    p.map lowerChar = p := by
  induction p with
  | nil => rfl
  | cons c cs ih =>
    simp only [List.map_cons, List.cons.injEq]
    exact ⟨lowerChar_of_isPunct (h c (by simp)),
           ih (fun x hx => h x (by simp [hx]))⟩

theorem dropWhile_append_all {p : Nat → Bool} {a : PyStr} (b : PyStr)
    (h : ∀ c ∈ a, p c = true) : (a ++ b).dropWhile p = b.dropWhile p := by
  rw [List.dropWhile_append, List.dropWhile_eq_nil_iff.2 h]
  simp

theorem dropWhile_append_notall {p : Nat → Bool} {a : PyStr} (b : PyStr)
    (h : ¬ ∀ c ∈ a, p c = true) : (a ++ b).dropWhile p = a.dropWhile p ++ b := by
  rw [List.dropWhile_append]
  have hne : a.dropWhile p ≠ [] := fun hnil => h (List.dropWhile_eq_nil_iff.1 hnil)
  simp [List.isEmpty_iff, hne]

theorem dropWhile_all_false {p : Nat → Bool} {l : PyStr}
    (h : ∀ c ∈ l, p c = false) : l.dropWhile p = l := by
  cases l with
  | nil => rfl
  | cons c cs =>
    rw [List.dropWhile_cons, h c (by simp)]
    simp

theorem pyStrip_map_lowerChar (l : PyStr) :
    pyStrip (l.map lowerChar) = (pyStrip l).map lowerChar := by
  have hfun : (isSpace ∘ lowerChar) = isSpace := funext isSpace_lowerChar
  unfold pyStrip
  rw [List.dropWhile_map, hfun, ← List.map_reverse, List.dropWhile_map, hfun,
      ← List.map_reverse]

theorem pyStrip_append_left {w : PyStr} (l : PyStr)
    (h : ∀ c ∈ w, isSpace c = true) : pyStrip (w ++ l) = pyStrip l := by
  unfold pyStrip
  rw [dropWhile_append_all l h]

theorem pyStrip_append_right {w : PyStr} (l : PyStr)
    (h : ∀ c ∈ w, isSpace c = true) : pyStrip (l ++ w) = pyStrip l := by
  unfold pyStrip
  by_cases hall : ∀ c ∈ l, isSpace c = true
  · rw [dropWhile_append_all w hall, List.dropWhile_eq_nil_iff.2 h,
        List.dropWhile_eq_nil_iff.2 hall]
  · rw [dropWhile_append_notall w hall, List.reverse_append,
        dropWhile_append_all _ (fun c hc => h c (List.mem_reverse.1 hc))]

theorem pyStrip_sandwich {w1 w2 : PyStr} (l : PyStr)
    (h1 : ∀ c ∈ w1, isSpace c = true) (h2 : ∀ c ∈ w2, isSpace c = true) :
    pyStrip (w1 ++ l ++ w2) = pyStrip l := by
  rw [List.append_assoc, pyStrip_append_left _ h1, pyStrip_append_right _ h2]


def endFlag (f : Bool) (a : PyStr) : Bool := a.foldl (fun _ c => isSpace c) f

theorem endFlag_nil (f : Bool) : endFlag f [] = f := rfl

theorem endFlag_cons (f : Bool) (c : Nat) (l : PyStr) :
    endFlag f (c :: l) = endFlag (isSpace c) l := rfl

theorem collapseWs_append (f : Bool) (a b : PyStr) :
    collapseWs f (a ++ b) = collapseWs f a ++ collapseWs (endFlag f a) b := by
  induction a generalizing f with
  | nil => simp [collapseWs, endFlag]
  | cons c cs ih =>
    rw [List.cons_append, endFlag_cons]
    by_cases hc : isSpace c = true
    · cases f <;> simp only [collapseWs, hc, if_true, Bool.false_eq_true, if_false,
        List.cons_append, List.nil_append] <;> rw [ih true]
    · rw [Bool.not_eq_true] at hc
      simp only [collapseWs, hc, Bool.false_eq_true, if_false, List.cons_append]
      rw [ih false]

theorem collapseWs_allSpace {w : PyStr} (hne : w ≠ [])
    (hw : ∀ c ∈ w, isSpace c = true) (f : Bool) (b : PyStr) :
    collapseWs f (w ++ b) =
      (if f then ([] : PyStr) else [32]) ++ collapseWs true b := by
  induction w generalizing f with
  | nil => exact absurd rfl hne
  | cons c cs ih =>
    have hc : isSpace c = true := hw c (by simp)
    by_cases hcs : cs = []
    · subst hcs
      cases f <;> simp [collapseWs, hc]
    · have step := ih hcs (fun x hx => hw x (by simp [hx]))
      cases f
      · simp only [collapseWs, hc, if_true, Bool.false_eq_true, if_false,
          List.cons_append, List.append_eq]
        rw [step true]
        simp
      · simp only [collapseWs, hc, if_true, List.cons_append, List.append_eq]
        rw [step true]
        simp

theorem collapseWs_spaceless {l : PyStr} (h : ∀ c ∈ l, isSpace c = false)
    (f : Bool) : collapseWs f l = l := by
  induction l generalizing f with
  | nil => rfl
  | cons c cs ih =>
    have hc : isSpace c = false := h c (by simp)
    simp only [collapseWs, hc, Bool.false_eq_true, if_false]
    rw [ih (fun x hx => h x (by simp [hx]))]

theorem collapseWs_map_lowerChar (f : Bool) (l : PyStr) :
    collapseWs f (l.map lowerChar) = (collapseWs f l).map lowerChar := by
  induction l generalizing f with
  | nil => rfl
  | cons c cs ih =>
    simp only [List.map_cons, collapseWs, isSpace_lowerChar]
    by_cases hc : isSpace c = true
    · cases f
      · simp only [hc, if_true, Bool.false_eq_true, if_false, List.map_cons]
        rw [ih true]
        rfl
      · simp only [hc, if_true, Bool.false_eq_true, if_false, List.map_cons]
        rw [ih true]
    · rw [Bool.not_eq_true] at hc
      simp only [hc, Bool.false_eq_true, if_false, List.map_cons]
      rw [ih false]

theorem stripTrailingPunct_append_punct {p : PyStr} (y : PyStr)
    (hp : ∀ c ∈ p, isPunct c = true) :
    stripTrailingPunct (y ++ p) = stripTrailingPunct y := by
  unfold stripTrailingPunct
  rw [List.reverse_append, dropWhile_append_all _ (fun c hc => hp c (List.mem_reverse.1 hc))]

/-- The unguarded canonicalization pipeline. -/
def canonCore (l : PyStr) : PyStr :=
  pyStrip (stripTrailingPunct (collapseWs false (List.map lowerChar (pyStrip l))))

theorem canonicalize_some (l : PyStr) :
    canonicalize_ingredient (some l) = canonCore l := by
  cases l with
  | nil => rfl
  | cons c cs => rfl


theorem canonCore_map_lowerChar (l : PyStr) :
    canonCore l =
      pyStrip (stripTrailingPunct (collapseWs false (pyStrip (l.map lowerChar)))) := by
  unfold canonCore
  rw [← pyStrip_map_lowerChar]

theorem canonCore_lower_congr {s t : PyStr}
    (h : s.map lowerChar = t.map lowerChar) : canonCore s = canonCore t := by
  rw [canonCore_map_lowerChar s, canonCore_map_lowerChar t, h]

theorem canonCore_sandwich {w1 w2 : PyStr} (l : PyStr)
    (h1 : ∀ c ∈ w1, isSpace c = true) (h2 : ∀ c ∈ w2, isSpace c = true) :
    canonCore (w1 ++ l ++ w2) = canonCore l := by
  unfold canonCore
  rw [pyStrip_sandwich l h1 h2]

theorem canonCore_ws_run {a b w w' : PyStr}
    (hw : w ≠ []) (hw' : w' ≠ [])
    (hsw : ∀ c ∈ w, isSpace c = true) (hsw' : ∀ c ∈ w', isSpace c = true) :
    canonCore (a ++ w ++ b) = canonCore (a ++ w' ++ b) := by
  by_cases ha : ∀ c ∈ a, isSpace c = true
  · have e : ∀ (v : PyStr), (∀ c ∈ v, isSpace c = true) →
        pyStrip (a ++ v ++ b) = pyStrip b := by
      intro v hv
      have hsplit : a ++ v ++ b = (a ++ v) ++ b ++ [] := by simp
      rw [hsplit, pyStrip_sandwich b (fun c hc => ?_) (by simp)]
      rcases List.mem_append.1 hc with h | h
      exacts [ha c h, hv c h]
    unfold canonCore
    rw [e w hsw, e w' hsw']
  · by_cases hb : ∀ c ∈ b, isSpace c = true
    · have e : ∀ (v : PyStr), (∀ c ∈ v, isSpace c = true) →
          pyStrip (a ++ v ++ b) = pyStrip a := by
        intro v hv
        rw [List.append_assoc, pyStrip_append_right a (fun c hc => ?_)]
        rcases List.mem_append.1 hc with h | h
        exacts [hv c h, hb c h]
      unfold canonCore
      rw [e w hsw, e w' hsw']
    · have hbrev : ¬ ∀ c ∈ b.reverse, isSpace c = true := by
        intro hc
        exact hb (fun c h => hc c (List.mem_reverse.2 h))
      have e : ∀ (v : PyStr), v ≠ [] → (∀ c ∈ v, isSpace c = true) →
          canonCore (a ++ v ++ b) =
            pyStrip (stripTrailingPunct
              (collapseWs false ((a.dropWhile isSpace).map lowerChar) ++
                ((if endFlag false ((a.dropWhile isSpace).map lowerChar) then ([] : PyStr) else [32]) ++
                  collapseWs true (((b.reverse.dropWhile isSpace).reverse).map lowerChar)))) := by
        intro v hv hsv
        have hstrip : pyStrip (a ++ v ++ b) =
            (a.dropWhile isSpace ++ v) ++ (b.reverse.dropWhile isSpace).reverse := by
          unfold pyStrip
          rw [List.append_assoc, dropWhile_append_notall _ ha]
          rw [show a.dropWhile isSpace ++ (v ++ b) = (a.dropWhile isSpace ++ v) ++ b by simp]
          rw [List.reverse_append, dropWhile_append_notall _ hbrev]
          simp
        unfold canonCore
        rw [hstrip]
        rw [List.map_append, List.map_append, map_lowerChar_allSpace hsv]
        rw [List.append_assoc, collapseWs_append,
            collapseWs_allSpace hv hsv _ _]
      rw [e w hw hsw, e w' hw' hsw']

theorem dropWhile_eq_self_of_pyStrip {x : PyStr} (hx : pyStrip x = x) :
    x.dropWhile isSpace = x := by
  have hsub : (x.dropWhile isSpace).Sublist x := List.dropWhile_sublist isSpace
  have hsub2 : ((x.dropWhile isSpace).reverse.dropWhile isSpace).Sublist
      (x.dropWhile isSpace).reverse := List.dropWhile_sublist isSpace
  have hlen : x.length ≤ (x.dropWhile isSpace).length := by
    have h1 := hsub2.length_le
    have : (pyStrip x).length = x.length := by rw [hx]
    unfold pyStrip at this
    simp only [List.length_reverse] at this h1
    omega
  exact hsub.eq_of_length (Nat.le_antisymm hsub.length_le hlen)

theorem dropWhile_reverse_eq_self_of_pyStrip {x : PyStr} (hx : pyStrip x = x) :
    x.reverse.dropWhile isSpace = x.reverse := by
  have hfront := dropWhile_eq_self_of_pyStrip hx
  have : pyStrip x = (x.reverse.dropWhile isSpace).reverse := by
    unfold pyStrip
    rw [hfront]
  rw [hx] at this
  have h2 : x.reverse = x.reverse.dropWhile isSpace := by
    conv_lhs => rw [this]
    rw [List.reverse_reverse]
  exact h2.symm

theorem canonCore_trailing_punct {x p : PyStr} (hx : pyStrip x = x)
    (hp : ∀ c ∈ p, isPunct c = true) : canonCore (x ++ p) = canonCore x := by
  have hpns : ∀ c ∈ p, isSpace c = false :=
    fun c hc => not_isSpace_of_isPunct (hp c hc)
  have hxf := dropWhile_eq_self_of_pyStrip hx
  have hxr := dropWhile_reverse_eq_self_of_pyStrip hx
  have hstrip : pyStrip (x ++ p) = x ++ p := by
    unfold pyStrip
    have hfront : (x ++ p).dropWhile isSpace = x ++ p := by
      rw [List.dropWhile_append, hxf]
      cases x with
      | nil => simp [dropWhile_all_false hpns]
      | cons c cs => simp
    rw [hfront, List.reverse_append, List.dropWhile_append,
        dropWhile_all_false (fun c hc => hpns c (List.mem_reverse.1 hc))]
    cases p with
    | nil => simp [hxr]
    | cons c cs => simp
  unfold canonCore
  rw [hstrip, hx, List.map_append, map_lowerChar_allPunct hp, collapseWs_append,
      collapseWs_spaceless hpns, stripTrailingPunct_append_punct _ hp]

/-! ## Claim C5 -/

/-- C5, counterexample: `"ab. "` and `"ab. " ++ "."` differ only by one
trailing punctuation character, yet their canonical keys differ (`"ab"`
versus `"ab."`): the single trailing-punctuation pass runs before the final
trim, so punctuation exposed by that trim survives. -/
theorem C5_trailing_punct_counterexample :
    (∀ c ∈ pyOfString ".", isPunct c = true) ∧
    canonicalize_ingredient (some (pyOfString "ab. " ++ pyOfString "."))
      ≠ canonicalize_ingredient (some (pyOfString "ab. ")) := by
  constructor
  · decide
  · decide

/-- C5, amended: `canonicalize_ingredient` maps the spec's examples to
`"tomato"`, maps empty and non-string input to the empty string, and its
canonical keys are invariant under case changes, surrounding whitespace,
and the choice of internal whitespace runs; appending trailing punctuation
preserves the key whenever the string it is appended to carries no
surrounding whitespace (without that proviso the claim fails, see the
counterexample). -/
theorem C5_canonicalize_invariances :
    (canonicalize_ingredient (some (pyOfString "Tomato.")) = pyOfString "tomato"
      ∧ canonicalize_ingredient (some (pyOfString " tomato  ")) = pyOfString "tomato"
      ∧ canonicalize_ingredient (some (pyOfString "TOMATO")) = pyOfString "tomato")
    ∧ (canonicalize_ingredient none = [] ∧ canonicalize_ingredient (some []) = [])
    ∧ (∀ s t : PyStr, s.map lowerChar = t.map lowerChar →
        canonicalize_ingredient (some s) = canonicalize_ingredient (some t))
    ∧ (∀ (w1 w2 l : PyStr), (∀ c ∈ w1, isSpace c = true) →
        (∀ c ∈ w2, isSpace c = true) →
        canonicalize_ingredient (some (w1 ++ l ++ w2)) = canonicalize_ingredient (some l))
    ∧ (∀ (a b w w' : PyStr), w ≠ [] → w' ≠ [] →
        (∀ c ∈ w, isSpace c = true) → (∀ c ∈ w', isSpace c = true) →
        canonicalize_ingredient (some (a ++ w ++ b))
          = canonicalize_ingredient (some (a ++ w' ++ b)))
    ∧ (∀ (x p : PyStr), pyStrip x = x → (∀ c ∈ p, isPunct c = true) →
        canonicalize_ingredient (some (x ++ p)) = canonicalize_ingredient (some x)) := by
  refine ⟨⟨by decide, by decide, by decide⟩, ⟨rfl, rfl⟩, ?_, ?_, ?_, ?_⟩
  · intro s t h
    rw [canonicalize_some, canonicalize_some]
    exact canonCore_lower_congr h
  · intro w1 w2 l h1 h2
    rw [canonicalize_some, canonicalize_some]
    exact canonCore_sandwich l h1 h2
  · intro a b w w' hw hw' hsw hsw'
    rw [canonicalize_some, canonicalize_some]
    exact canonCore_ws_run hw hw' hsw hsw'
  · intro x p hx hp
    rw [canonicalize_some, canonicalize_some]
    exact canonCore_trailing_punct hx hp

/-- Witness for the amended C5, at concrete inputs. -/
theorem C5_canonicalize_invariances_witness :
    canonicalize_ingredient (some (pyOfString "ToMaTo"))
      = canonicalize_ingredient (some (pyOfString "tOmAtO"))
    ∧ canonicalize_ingredient (some (pyOfString "  " ++ pyOfString "x" ++ pyOfString " "))
      = canonicalize_ingredient (some (pyOfString "x"))
    ∧ canonicalize_ingredient (some (pyOfString "a" ++ pyOfString " " ++ pyOfString "b"))
      = canonicalize_ingredient (some (pyOfString "a" ++ pyOfString "\t \t" ++ pyOfString "b"))
    ∧ canonicalize_ingredient (some (pyOfString "tomato" ++ pyOfString "!!"))
      = canonicalize_ingredient (some (pyOfString "tomato")) :=
  ⟨C5_canonicalize_invariances.2.2.1 _ _ (by decide),
   C5_canonicalize_invariances.2.2.2.1 _ _ _ (by decide) (by decide),
   C5_canonicalize_invariances.2.2.2.2.1 _ _ _ _ (by decide) (by decide)
     (by decide) (by decide),
   C5_canonicalize_invariances.2.2.2.2.2 _ _ (by decide) (by decide)⟩


/-! ## Claim C8 -/

theorem C8_upsert_restaurant (st : State) (rid : Int) (now : Nat) :
    ((upsertRestaurant st rid now).restaurants.map (fun r => (r.restaurant_id, r.name))
      = st.restaurants.map (fun r => (r.restaurant_id, r.name))
        ++ (if st.restaurants.any (fun r => r.restaurant_id == rid) then []
            else [(rid, (none : Option PyStr))]))
    ∧ (∀ r ∈ st.restaurants, r.restaurant_id ≠ rid →
        r ∈ (upsertRestaurant st rid now).restaurants)
    ∧ (∀ r ∈ st.restaurants, r.restaurant_id = rid →
        { r with updated_at := now } ∈ (upsertRestaurant st rid now).restaurants)
    ∧ (upsertRestaurant st rid now).menuItems = st.menuItems
    ∧ (upsertRestaurant st rid now).ingredients = st.ingredients
    ∧ (upsertRestaurant st rid now).observations = st.observations
    ∧ (upsertRestaurant st rid now).links = st.links
    ∧ (upsertRestaurant st rid now).runs = st.runs := by
  unfold upsertRestaurant
  by_cases hany : st.restaurants.any (fun r => r.restaurant_id == rid) = true
  · simp only [hany, if_true]
    refine ⟨?_, ?_, ?_, by trivial, by trivial, by trivial, by trivial, by trivial⟩
    · rw [List.map_map, List.append_nil]
      apply List.map_congr_left
      intro r _
      by_cases hr : r.restaurant_id = rid
      · simp [hr]
      · simp [hr]
    · intro r hr hne
      refine List.mem_map.2 ⟨r, hr, ?_⟩
      simp [hne]
    · intro r hr heq
      refine List.mem_map.2 ⟨r, hr, ?_⟩
      simp [heq]
  · simp only [hany, Bool.false_eq_true, if_false]
    refine ⟨?_, ?_, ?_, by trivial, by trivial, by trivial, by trivial, by trivial⟩
    · rw [List.map_append]
      rfl
    · intro r hr _
      exact List.mem_append_left _ hr
    · intro r hr heq
      exfalso
      exact hany (List.any_eq_true.2 ⟨r, hr, by simp [heq]⟩)

theorem C8_upsert_restaurant_witness :
    ({ restaurant_id := 5, name := some (pyOfString "Joe"), updated_at := 9 } : RestaurantRow)
      ∈ (upsertRestaurant
          { emptyState with restaurants :=
              [{ restaurant_id := 5, name := some (pyOfString "Joe"), updated_at := 0 }] }
          5 9).restaurants :=
  (C8_upsert_restaurant
      { emptyState with restaurants :=
          [{ restaurant_id := 5, name := some (pyOfString "Joe"), updated_at := 0 }] }
      5 9).2.2.1
    { restaurant_id := 5, name := some (pyOfString "Joe"), updated_at := 0 }
    (by decide) (by decide)

/-! ## Claim C9 -/

theorem C9_ambient_config_counterexample :
    write_run { prompt_version := some (pyOfString "v1"), pipeline_version := none }
        emptyState [] (some (pyOfString "gpt-4o")) none none 0
      ≠ write_run { prompt_version := some (pyOfString "v2"), pipeline_version := none }
        emptyState [] (some (pyOfString "gpt-4o")) none none 0 := by
  decide

theorem C9_explicit_versions_no_ambient (amb1 amb2 : AmbientConfig) (st : State)
    (results : List ExtractionResult) (mn : Option PyStr) (pv plv : PyStr)
    (now : Nat) :
    write_run amb1 st results mn (some pv) (some plv) now
      = write_run amb2 st results mn (some pv) (some plv) now := rfl

theorem C9_explicit_versions_witness :
    write_run { prompt_version := some (pyOfString "v1"), pipeline_version := none }
        emptyState [] (some (pyOfString "gpt-4o")) (some (pyOfString "p"))
        (some (pyOfString "q")) 0
      = write_run { prompt_version := some (pyOfString "v2"), pipeline_version := none }
        emptyState [] (some (pyOfString "gpt-4o")) (some (pyOfString "p"))
        (some (pyOfString "q")) 0 :=
  C9_explicit_versions_no_ambient _ _ _ _ _ _ _ _


/-! ## Helper lemmas for the write path -/

theorem foldE_error_of_mem {σ α : Type} (f : σ → α → Except DbError σ)
    (P : α → Prop) (hf : ∀ s a, P a → ∃ e, f s a = .error e) :
    ∀ (l : List α), (∃ a ∈ l, P a) → ∀ s, ∃ e, foldE f s l = .error e := by
  intro l
  induction l with
  | nil =>
    rintro ⟨a, ha, _⟩
    cases ha
  | cons a rest ih =>
    rintro ⟨b, hb, hPb⟩ s
    rcases List.mem_cons.1 hb with rfl | hbrest
    · obtain ⟨e, he⟩ := hf s b hPb
      exact ⟨e, by simp [foldE, he]⟩
    · cases hfa : f s a with
      | error e => exact ⟨e, by simp [foldE, hfa]⟩
      | ok s' =>
        obtain ⟨e, he⟩ := ih ⟨b, hbrest, hPb⟩ s'
        exact ⟨e, by simp [foldE, hfa, he]⟩

theorem lookupIngredient_upsert (st : State) (c d : PyStr) :
    ∃ row, lookupIngredient (upsertIngredient st c d) c = some row := by
  rw [← Option.isSome_iff_exists]
  unfold lookupIngredient upsertIngredient
  by_cases hany : st.ingredients.any (fun r => r.canonical_name == c) = true
  · simp only [hany, if_true]
    rw [List.find?_isSome]
    obtain ⟨r, hr, hc⟩ := List.any_eq_true.1 hany
    refine ⟨if r.canonical_name == c then { r with display_name := d } else r,
            List.mem_map_of_mem _ hr, ?_⟩
    rw [hc]
    simpa using hc
  · simp only [hany, Bool.false_eq_true, if_false]
    rw [List.find?_isSome]
    exact ⟨_, List.mem_append_right _ (List.mem_singleton_self _), by simp⟩

theorem upsertObservation_mem (st : State) (runId : Nat) (iid : Int) (gid : Nat)
    (conf : ℚ) (now : Nat) :
    ({ run_id := runId, item_id := iid, ingredient_id := gid,
       confidence := conf, created_at := now } : ObservationRow)
      ∈ (upsertObservation st runId iid gid conf now).observations := by
  unfold upsertObservation
  by_cases hany : st.observations.any (fun o =>
      o.run_id == runId && o.item_id == iid && o.ingredient_id == gid) = true
  · simp only [hany, if_true]
    obtain ⟨o, ho, hk⟩ := List.any_eq_true.1 hany
    refine List.mem_map.2 ⟨o, ho, ?_⟩
    rw [hk]
    simp only [Bool.and_eq_true, beq_iff_eq] at hk
    simp only [if_true]
    obtain ⟨⟨h1, h2⟩, h3⟩ := hk
    cases o
    simp_all
  · simp only [hany, Bool.false_eq_true, if_false]
    exact List.mem_append_right _ (List.mem_singleton_self _)

theorem processIngredient_badconf_error (runId : Nat) (itemId : Int) (now : Nat)
    (st : State) (seen : List (Nat × ℚ)) (e : IngredientEntry)
    (hname : rawName e ≠ []) (hbad : e.confidence = some PyNum.bad) :
    processIngredient runId itemId now (st, seen) e = .error .valueError := by
  unfold processIngredient
  have hne : (pyStrip (e.name.getD [])).isEmpty = false := by
    rw [List.isEmpty_eq_false]
    exact hname
  simp [hne, hbad, pyFloat]

/-! ## Claim C7 -/

theorem C7_bad_confidence_aborts :
    canonOf { name := some (pyOfString "."), confidence := some PyNum.bad } = []
    ∧ write_run { prompt_version := none, pipeline_version := none } emptyState
        [{ item_id := .int 1, restaurant_id := .int 2, item_name := none,
           reasoning := none,
           ingredients := some
             [{ name := some (pyOfString "."), confidence := some PyNum.bad }] }]
        (some (pyOfString "gpt-4o")) none none 0
      = .error .valueError := by
  constructor
  · decide
  · decide

theorem C7_empty_canonical_skipped (runId : Nat) (itemId : Int) (now : Nat)
    (st : State) (seen : List (Nat × ℚ)) (e : IngredientEntry)
    (hcanon : canonOf e = [])
    (hconf : e.confidence ≠ some PyNum.bad ∨ rawName e = []) :
    processIngredient runId itemId now (st, seen) e = .ok (st, seen) := by
  unfold processIngredient
  by_cases hname : (pyStrip (e.name.getD [])).isEmpty = true
  · simp [hname]
  · rcases hconf with hok | hraw
    · have hfl : ∃ q, pyFloat e.confidence = .ok q := by
        cases hc : e.confidence with
        | none => exact ⟨0, rfl⟩
        | some v =>
          cases v with
          | num q => exact ⟨q, rfl⟩
          | bad => exact absurd hc hok
      obtain ⟨q, hq⟩ := hfl
      have hc : canonicalize_ingredient (some (pyStrip (e.name.getD []))) = [] := hcanon
      simp [hname, hq, hc]
    · exfalso
      apply hname
      unfold rawName at hraw
      rw [hraw]
      rfl

theorem C7_empty_canonical_skipped_witness :
    processIngredient 1 1 0 (emptyState, [])
      { name := some (pyOfString " ? "), confidence := none }
      = .ok (emptyState, []) :=
  C7_empty_canonical_skipped 1 1 0 emptyState []
    { name := some (pyOfString " ? "), confidence := none }
    (by decide) (Or.inl (by decide))

/-! ## Claim C10 -/

theorem C10_confidence_default_and_abort (runId : Nat) (itemId : Int) (now : Nat) :
    (∀ (st : State) (seen : List (Nat × ℚ)) (e : IngredientEntry),
        rawName e ≠ [] → canonOf e ≠ [] → e.confidence = none →
        ∃ st' g, processIngredient runId itemId now (st, seen) e
            = .ok (st', seen ++ [(g, 0)])
          ∧ { run_id := runId, item_id := itemId, ingredient_id := g,
              confidence := 0, created_at := now } ∈ st'.observations)
    ∧ (∀ (st : State) (seen : List (Nat × ℚ)) (e : IngredientEntry),
        rawName e ≠ [] → e.confidence = some PyNum.bad →
        processIngredient runId itemId now (st, seen) e = .error .valueError)
    ∧ (∀ (amb : AmbientConfig) (st : State) (results : List ExtractionResult)
          (mn pv plv : Option PyStr) (now' : Nat),
        (∃ r ∈ results, ∃ e ∈ r.ingredients.getD [],
            rawName e ≠ [] ∧ e.confidence = some PyNum.bad) →
        ∃ err, write_run amb st results mn pv plv now' = .error err) := by
  refine ⟨?_, ?_, ?_⟩
  · intro st seen e hname hcanon hmiss
    have hne : (pyStrip (e.name.getD [])).isEmpty = false := by
      rw [List.isEmpty_eq_false]
      exact hname
    have hcne : (canonicalize_ingredient (some (pyStrip (e.name.getD [])))).isEmpty = false := by
      rw [List.isEmpty_eq_false]
      exact hcanon
    have hclamp : max (0 : ℚ) (min 1 0) = 0 := by decide
    have hr30 : round3 (0 : ℚ) = 0 := by decide
    obtain ⟨row, hrow⟩ := lookupIngredient_upsert st
      (canonicalize_ingredient (some (pyStrip (e.name.getD []))))
      (display_name_for_ingredient (some (pyStrip (e.name.getD []))))
    refine ⟨upsertObservation
        (upsertIngredient st (canonicalize_ingredient (some (pyStrip (e.name.getD []))))
          (display_name_for_ingredient (some (pyStrip (e.name.getD [])))))
        runId itemId row.ingredient_id 0 now,
      row.ingredient_id, ?_, ?_⟩
    · unfold processIngredient
      simp only [hne, Bool.false_eq_true, if_false, hmiss, pyFloat, hcne, hrow,
        hclamp, hr30]
    · exact upsertObservation_mem _ _ _ _ _ _
  · intro st seen e hname hbad
    exact processIngredient_badconf_error runId itemId now st seen e hname hbad
  · intro amb st results mn pv plv now' hbad
    have hitem : ∀ (s : State) (r : ExtractionResult),
        (∃ e ∈ r.ingredients.getD [], rawName e ≠ [] ∧ e.confidence = some PyNum.bad) →
        ∃ err, processResult st.nextRunId now' s r = .error err := by
      intro s r hr
      cases hid : r.item_id with
      | bad => exact ⟨.valueError, by unfold processResult; rw [hid]; rfl⟩
      | int n =>
        cases hrid : r.restaurant_id with
        | bad => exact ⟨.valueError, by unfold processResult; rw [hid, hrid]; rfl⟩
        | int m =>
          obtain ⟨err, herr⟩ := foldE_error_of_mem
            (processIngredient st.nextRunId n now')
            (fun e => rawName e ≠ [] ∧ e.confidence = some PyNum.bad)
            (fun acc e he => ⟨.valueError, by
                obtain ⟨h1, h2⟩ := he
                cases acc with
                | mk accst accseen =>
                  exact processIngredient_badconf_error _ _ _ _ _ _ h1 h2⟩)
            (r.ingredients.getD []) hr
            (upsertMenuItem (upsertRestaurant s m now') n m (r.item_name.getD [])
              r.reasoning now', ([] : List (Nat × ℚ)))
          refine ⟨err, ?_⟩
          unfold processResult
          rw [hid, hrid]
          simp only [pyInt]
          rw [herr]
    have hfold := foldE_error_of_mem (processResult st.nextRunId now')
      (fun r => ∃ e ∈ r.ingredients.getD [],
          rawName e ≠ [] ∧ e.confidence = some PyNum.bad)
      hitem results hbad
    obtain ⟨err, herr⟩ := hfold
      (insertRunRow st mn (pv.or amb.prompt_version) (plv.or amb.pipeline_version))
    exact ⟨err, by unfold write_run; rw [herr]⟩


theorem C10_confidence_default_and_abort_witness :
    processIngredient 1 1 0 (emptyState, [])
      { name := some (pyOfString "milk"), confidence := some PyNum.bad }
      = .error .valueError :=
  (C10_confidence_default_and_abort 1 1 0).2.1 emptyState []
    { name := some (pyOfString "milk"), confidence := some PyNum.bad }
    (by decide) rfl

/-! ## Claim C2 -/

theorem processResult_badid_error (runId : Nat) (now : Nat) (st : State)
    (r : ExtractionResult)
    (h : r.item_id = PyKey.bad ∨ r.restaurant_id = PyKey.bad) :
    ∃ e, processResult runId now st r = .error e := by
  rcases h with h | h
  · exact ⟨.valueError, by unfold processResult; rw [h]; rfl⟩
  · cases hid : r.item_id with
    | bad => exact ⟨.valueError, by unfold processResult; rw [hid]; rfl⟩
    | int n => exact ⟨.valueError, by unfold processResult; rw [hid, h]; rfl⟩

theorem C2_transaction_atomicity (amb : AmbientConfig) (st0 : State)
    (results : List ExtractionResult) (mn pv plv : Option PyStr) (now : Nat) :
    (run_with_transaction amb st0 results mn pv plv now).closed = true
    ∧ (∀ e, write_run amb st0 results mn pv plv now = .error e →
        (run_with_transaction amb st0 results mn pv plv now).result = .error e
        ∧ (run_with_transaction amb st0 results mn pv plv now).committed = st0)
    ∧ ((∃ r ∈ results, r.item_id = PyKey.bad ∨ r.restaurant_id = PyKey.bad) →
        ∃ e, (run_with_transaction amb st0 results mn pv plv now).result = .error e
          ∧ (run_with_transaction amb st0 results mn pv plv now).committed = st0) := by
  refine ⟨?_, ?_, ?_⟩
  · unfold run_with_transaction
    cases h : write_run amb st0 results mn pv plv now with
    | ok p => obtain ⟨rid, st⟩ := p; rfl
    | error e => rfl
  · intro e he
    unfold run_with_transaction
    rw [he]
    exact ⟨rfl, rfl⟩
  · intro hbad
    have hfold := foldE_error_of_mem (processResult st0.nextRunId now)
      (fun r => r.item_id = PyKey.bad ∨ r.restaurant_id = PyKey.bad)
      (fun s r hr => processResult_badid_error _ _ s r hr) results hbad
    obtain ⟨e, he⟩ := hfold
      (insertRunRow st0 mn (pv.or amb.prompt_version) (plv.or amb.pipeline_version))
    have hw : write_run amb st0 results mn pv plv now = .error e := by
      unfold write_run
      rw [he]
    refine ⟨e, ?_, ?_⟩ <;> unfold run_with_transaction <;> rw [hw]

theorem C2_transaction_atomicity_witness :
    ∃ e, (run_with_transaction { prompt_version := none, pipeline_version := none }
        emptyState
        [{ item_id := PyKey.bad, restaurant_id := .int 2, item_name := none,
           reasoning := none, ingredients := none }]
        (some (pyOfString "gpt-4o")) none none 0).result = .error e
      ∧ (run_with_transaction { prompt_version := none, pipeline_version := none }
        emptyState
        [{ item_id := PyKey.bad, restaurant_id := .int 2, item_name := none,
           reasoning := none, ingredients := none }]
        (some (pyOfString "gpt-4o")) none none 0).committed = emptyState :=
  (C2_transaction_atomicity _ _ _ _ _ _ _).2.2
    ⟨{ item_id := PyKey.bad, restaurant_id := .int 2, item_name := none,
       reasoning := none, ingredients := none }, by decide, Or.inl rfl⟩

/-! ## Claim C6 -/

theorem C6_duplicate_canonical_aborts :
    canonicalize_ingredient (some (pyOfString "tomato"))
      = canonicalize_ingredient (some (pyOfString "Tomato."))
    ∧ write_run { prompt_version := none, pipeline_version := none } emptyState
        [{ item_id := .int 1, restaurant_id := .int 2, item_name := none,
           reasoning := none,
           ingredients := some
             [{ name := some (pyOfString "tomato"),
                confidence := some (.num (mkRat 5 10)) },
              { name := some (pyOfString "Tomato."),
                confidence := some (.num (mkRat 9 10)) }] }]
        (some (pyOfString "gpt-4o")) none none 0
      = .error .duplicateKey :=
  ⟨by decide, by decide⟩


/-! ## Structural lemmas for the write path -/

theorem foldE_append {σ α : Type} (f : σ → α → Except DbError σ)
    (l₁ l₂ : List α) (s : σ) :
    foldE f s (l₁ ++ l₂) = match foldE f s l₁ with
      | .ok s₁ => foldE f s₁ l₂
      | .error e => .error e := by
  induction l₁ generalizing s with
  | nil => rfl
  | cons a rest ih =>
    rw [List.cons_append]
    show (match f s a with
      | .ok s' => foldE f s' (rest ++ l₂)
      | .error e => .error e)
      = match (match f s a with
          | .ok s' => foldE f s' rest
          | .error e => .error e) with
        | .ok s₁ => foldE f s₁ l₂
        | .error e => .error e
    cases hfa : f s a with
    | ok s' => exact ih s'
    | error e => rfl

theorem forall₂_mem_right {α β : Type} {R : α → β → Prop} :
    ∀ {l₁ : List α} {l₂ : List β}, List.Forall₂ R l₁ l₂ →
      ∀ b ∈ l₂, ∃ a ∈ l₁, R a b := by
  intro l₁ l₂ h
  induction h with
  | nil => intro b hb; cases hb
  | cons hab _ ih =>
    intro b hb
    rcases List.mem_cons.1 hb with rfl | hb
    · exact ⟨_, List.mem_cons_self _ _, hab⟩
    · obtain ⟨a, ha, hr⟩ := ih b hb
      exact ⟨a, List.mem_cons_of_mem _ ha, hr⟩

theorem forall₂_mem_left {α β : Type} {R : α → β → Prop} :
    ∀ {l₁ : List α} {l₂ : List β}, List.Forall₂ R l₁ l₂ →
      ∀ a ∈ l₁, ∃ b ∈ l₂, R a b := by
  intro l₁ l₂ h
  induction h with
  | nil => intro a ha; cases ha
  | cons hab _ ih =>
    intro a ha
    rcases List.mem_cons.1 ha with rfl | ha
    · exact ⟨_, List.mem_cons_self _ _, hab⟩
    · obtain ⟨b, hb, hr⟩ := ih a ha
      exact ⟨b, List.mem_cons_of_mem _ hb, hr⟩

theorem forall₂_map_eq {α β γ : Type} {R : α → β → Prop}
    (f : α → γ) (g : β → γ) :
    ∀ {l₁ : List α} {l₂ : List β}, List.Forall₂ R l₁ l₂ →
      (∀ a b, R a b → f a = g b) → l₁.map f = l₂.map g := by
  intro l₁ l₂ h hfg
  induction h with
  | nil => rfl
  | cons hab _ ih =>
    simp only [List.map_cons, List.cons.injEq]
    exact ⟨hfg _ _ hab, ih⟩

theorem carries_iff {r : ExtractionResult} {iid : Int} :
    carries r iid = true ↔ r.item_id = PyKey.int iid := by
  unfold carries
  exact beq_iff_eq

theorem lastFor_append_carries {results : List ExtractionResult}
    {r : ExtractionResult} {iid : Int} (h : carries r iid = true) :
    lastFor (results ++ [r]) iid = some r := by
  unfold lastFor
  rw [List.filter_append]
  simp only [List.filter_cons, h, if_true, List.filter_nil]
  exact List.getLast?_concat _

theorem lastFor_append_not {results : List ExtractionResult}
    {r : ExtractionResult} {iid : Int} (h : carries r iid = false) :
    lastFor (results ++ [r]) iid = lastFor results iid := by
  unfold lastFor
  rw [List.filter_append]
  simp [List.filter_cons, h]

theorem lastFor_none_append {results : List ExtractionResult}
    {r : ExtractionResult} {iid : Int}
    (h : lastFor (results ++ [r]) iid = none) :
    lastFor results iid = none ∧ carries r iid = false := by
  unfold lastFor at h ⊢
  rw [List.getLast?_eq_none_iff, List.filter_append] at h
  obtain ⟨h1, h2⟩ := List.append_eq_nil.1 h
  constructor
  · rw [List.getLast?_eq_none_iff]
    exact h1
  · by_contra hc
    rw [Bool.not_eq_false] at hc
    rw [List.filter_eq_nil_iff] at h2
    exact h2 r (List.mem_singleton_self r) hc

/-! ### Frames of the primitive statements -/

theorem upsertRestaurant_frame (st : State) (rid : Int) (now : Nat) :
    (upsertRestaurant st rid now).ingredients = st.ingredients
    ∧ (upsertRestaurant st rid now).observations = st.observations
    ∧ (upsertRestaurant st rid now).links = st.links
    ∧ (upsertRestaurant st rid now).runs = st.runs
    ∧ (upsertRestaurant st rid now).nextRunId = st.nextRunId
    ∧ (upsertRestaurant st rid now).nextIngId = st.nextIngId := by
  unfold upsertRestaurant
  split <;> exact ⟨rfl, rfl, rfl, rfl, rfl, rfl⟩

theorem upsertMenuItem_frame (st : State) (iid rid : Int) (iname : PyStr)
    (reasoning : Option PyStr) (now : Nat) :
    (upsertMenuItem st iid rid iname reasoning now).ingredients = st.ingredients
    ∧ (upsertMenuItem st iid rid iname reasoning now).observations = st.observations
    ∧ (upsertMenuItem st iid rid iname reasoning now).links = st.links
    ∧ (upsertMenuItem st iid rid iname reasoning now).runs = st.runs
    ∧ (upsertMenuItem st iid rid iname reasoning now).nextRunId = st.nextRunId
    ∧ (upsertMenuItem st iid rid iname reasoning now).nextIngId = st.nextIngId := by
  unfold upsertMenuItem
  split <;> exact ⟨rfl, rfl, rfl, rfl, rfl, rfl⟩

theorem upsertIngredient_frame (st : State) (c d : PyStr) :
    (upsertIngredient st c d).observations = st.observations
    ∧ (upsertIngredient st c d).links = st.links
    ∧ (upsertIngredient st c d).runs = st.runs
    ∧ (upsertIngredient st c d).restaurants = st.restaurants
    ∧ (upsertIngredient st c d).menuItems = st.menuItems
    ∧ (upsertIngredient st c d).nextRunId = st.nextRunId := by
  unfold upsertIngredient
  split <;> exact ⟨rfl, rfl, rfl, rfl, rfl, rfl⟩

theorem upsertObservation_frame (st : State) (runId : Nat) (iid : Int)
    (gid : Nat) (conf : ℚ) (now : Nat) :
    (upsertObservation st runId iid gid conf now).ingredients = st.ingredients
    ∧ (upsertObservation st runId iid gid conf now).links = st.links
    ∧ (upsertObservation st runId iid gid conf now).runs = st.runs
    ∧ (upsertObservation st runId iid gid conf now).restaurants = st.restaurants
    ∧ (upsertObservation st runId iid gid conf now).menuItems = st.menuItems
    ∧ (upsertObservation st runId iid gid conf now).nextRunId = st.nextRunId
    ∧ (upsertObservation st runId iid gid conf now).nextIngId = st.nextIngId := by
  unfold upsertObservation
  split <;> exact ⟨rfl, rfl, rfl, rfl, rfl, rfl, rfl⟩

theorem deleteLinks_frame (st : State) (iid : Int) :
    (deleteLinks st iid).ingredients = st.ingredients
    ∧ (deleteLinks st iid).observations = st.observations
    ∧ (deleteLinks st iid).runs = st.runs
    ∧ (deleteLinks st iid).restaurants = st.restaurants
    ∧ (deleteLinks st iid).menuItems = st.menuItems
    ∧ (deleteLinks st iid).nextRunId = st.nextRunId
    ∧ (deleteLinks st iid).nextIngId = st.nextIngId :=
  ⟨rfl, rfl, rfl, rfl, rfl, rfl, rfl⟩

theorem insertLink_frame (st : State) (iid : Int) (gid : Nat) (conf : ℚ)
    (st' : State) (h : insertLink st iid gid conf = .ok st') :
    st'.ingredients = st.ingredients
    ∧ st'.observations = st.observations
    ∧ st'.runs = st.runs
    ∧ st'.restaurants = st.restaurants
    ∧ st'.menuItems = st.menuItems
    ∧ st'.nextRunId = st.nextRunId
    ∧ st'.nextIngId = st.nextIngId
    ∧ st'.links = st.links ++ [{ item_id := iid, ingredient_id := gid,
                                 confidence := conf }] := by
  unfold insertLink at h
  split at h
  · cases h
  · cases h
    exact ⟨rfl, rfl, rfl, rfl, rfl, rfl, rfl, rfl⟩

theorem insertRunRow_frame (st : State) (mn pv plv : Option PyStr) :
    (insertRunRow st mn pv plv).ingredients = st.ingredients
    ∧ (insertRunRow st mn pv plv).observations = st.observations
    ∧ (insertRunRow st mn pv plv).links = st.links
    ∧ (insertRunRow st mn pv plv).restaurants = st.restaurants
    ∧ (insertRunRow st mn pv plv).menuItems = st.menuItems
    ∧ (insertRunRow st mn pv plv).nextRunId = st.nextRunId + 1
    ∧ (insertRunRow st mn pv plv).runs
        = st.runs ++ [{ run_id := st.nextRunId, model_name := mn,
                        prompt_version := pv, pipeline_version := plv }] :=
  ⟨rfl, rfl, rfl, rfl, rfl, rfl, rfl⟩

/-! ### Resolution stability -/

theorem resolveId_upsertIngredient {st : State} {c' : PyStr} {g : Nat}
    (c d : PyStr) (h : resolveId st c' = some g) :
    resolveId (upsertIngredient st c d) c' = some g := by
  unfold resolveId lookupIngredient at h ⊢
  unfold upsertIngredient
  split
  · rw [List.find?_map]
    have hcomp : ((fun r : IngredientRow => r.canonical_name == c') ∘
        (fun r : IngredientRow =>
          if r.canonical_name == c then { r with display_name := d } else r))
        = (fun r : IngredientRow => r.canonical_name == c') := by
      funext r
      by_cases hr : r.canonical_name == c
      · simp [Function.comp, hr]
      · simp [Function.comp, hr]
    rw [hcomp]
    cases hf : st.ingredients.find? (fun r => r.canonical_name == c') with
    | none => rw [hf] at h; cases h
    | some row =>
      rw [hf] at h
      simp only [Option.map_some'] at h ⊢
      by_cases hrow : row.canonical_name == c
      · simp [hrow, ← h]
      · simp [hrow, ← h]
  · rw [List.find?_append]
    cases hf : st.ingredients.find? (fun r => r.canonical_name == c') with
    | none => rw [hf] at h; cases h
    | some row => rw [hf] at h; simpa using h

theorem resolveId_eq_of_ingredients_eq {st st' : State}
    (h : st'.ingredients = st.ingredients) (c : PyStr) :
    resolveId st' c = resolveId st c := by
  unfold resolveId lookupIngredient
  rw [h]

theorem resolveId_upsertIngredient_self (st : State) (c d : PyStr) :
    ∃ g, resolveId (upsertIngredient st c d) c = some g := by
  obtain ⟨row, hrow⟩ := lookupIngredient_upsert st c d
  exact ⟨row.ingredient_id, by unfold resolveId; rw [hrow]; rfl⟩


theorem filter_map_invariant {α : Type} (p : α → Bool) (f : α → α)
    (l : List α) (h : ∀ a ∈ l, p (f a) = p a ∧ (p a = true → f a = a)) :
    (l.map f).filter p = l.filter p := by
  induction l with
  | nil => rfl
  | cons a rest ih =>
    simp only [List.map_cons, List.filter_cons]
    obtain ⟨h1, h2⟩ := h a (List.mem_cons_self a rest)
    have ih' := ih (fun x hx => h x (List.mem_cons_of_mem a hx))
    rw [h1]
    by_cases hp : p a = true
    · simp only [hp, if_true]
      rw [h2 hp, ih']
    · simp only [hp, Bool.false_eq_true, if_false]
      exact ih'

theorem obsForRun_upsertObservation_ne (st : State) (runId : Nat) (iid : Int)
    (gid : Nat) (conf : ℚ) (now : Nat) (ρ : Nat) (hρ : ρ ≠ runId) :
    obsForRun (upsertObservation st runId iid gid conf now) ρ = obsForRun st ρ := by
  unfold obsForRun upsertObservation
  split
  · apply filter_map_invariant
    intro o _
    by_cases hk : (o.run_id == runId && o.item_id == iid && o.ingredient_id == gid) = true
    · refine ⟨by rw [if_pos hk], fun hp => ?_⟩
      exfalso
      simp only [Bool.and_eq_true, beq_iff_eq] at hk
      simp only [beq_iff_eq] at hp
      exact hρ (by rw [← hp, hk.1.1])
    · exact ⟨by rw [if_neg hk], fun _ => by rw [if_neg hk]⟩
  · rw [List.filter_append]
    have hnil : List.filter (fun o : ObservationRow => o.run_id == ρ)
        [{ run_id := runId, item_id := iid, ingredient_id := gid,
           confidence := conf, created_at := now }] = [] := by
      simp only [List.filter_cons, List.filter_nil]
      have : (runId == ρ) = false := by
        rw [beq_eq_false_iff_ne]
        exact fun hh => hρ hh.symm
      simp [this]
    rw [hnil, List.append_nil]

theorem upsertObservation_mem_inv (st : State) (runId : Nat) (iid : Int)
    (gid : Nat) (conf : ℚ) (now : Nat) (o : ObservationRow)
    (ho : o ∈ (upsertObservation st runId iid gid conf now).observations) :
    o ∈ st.observations ∨ o.confidence = conf := by
  unfold upsertObservation at ho
  split at ho
  · obtain ⟨o₀, ho₀, heq⟩ := List.mem_map.1 ho
    by_cases hk : (o₀.run_id == runId && o₀.item_id == iid && o₀.ingredient_id == gid) = true
    · right
      rw [if_pos hk] at heq
      rw [← heq]
    · left
      rw [if_neg hk] at heq
      rw [← heq]
      exact ho₀
  · rcases List.mem_append.1 ho with hmem | hmem
    · exact Or.inl hmem
    · right
      rw [List.mem_singleton] at hmem
      rw [hmem]

theorem processIngredient_ok_spec (runId : Nat) (itemId : Int) (now : Nat)
    (st : State) (seen : List (Nat × ℚ)) (e : IngredientEntry)
    (st' : State) (seen' : List (Nat × ℚ))
    (h : processIngredient runId itemId now (st, seen) e = .ok (st', seen')) :
    (∀ c g, resolveId st c = some g → resolveId st' c = some g)
    ∧ st'.links = st.links ∧ st'.runs = st.runs
    ∧ st'.restaurants = st.restaurants ∧ st'.menuItems = st.menuItems
    ∧ st'.nextRunId = st.nextRunId
    ∧ (∀ ρ, ρ ≠ runId → obsForRun st' ρ = obsForRun st ρ)
    ∧ (∀ o ∈ st'.observations, o ∈ st.observations ∨ storedConf o.confidence)
    ∧ ((keptB e = false ∧ st' = st ∧ seen' = seen)
        ∨ (keptB e = true ∧ ∃ g, resolveId st' (canonOf e) = some g
            ∧ seen' = seen ++ [(g, clamp01 (confQ e))])) := by
  unfold processIngredient at h
  dsimp only at h
  by_cases hname : (pyStrip (e.name.getD [])).isEmpty = true
  · rw [if_pos hname] at h
    injection h with h1
    injection h1 with h2 h3
    subst h2
    subst h3
    refine ⟨fun c g hg => hg, rfl, rfl, rfl, rfl, rfl, fun ρ _ => rfl,
      fun o ho => Or.inl ho, Or.inl ⟨?_, rfl, rfl⟩⟩
    unfold keptB rawName
    rw [hname]
    rfl
  · rw [if_neg hname] at h
    cases hconf : pyFloat e.confidence with
    | error err =>
      rw [hconf] at h
      dsimp only at h
      cases h
    | ok q =>
      rw [hconf] at h
      dsimp only at h
      by_cases hcan : (canonicalize_ingredient (some (pyStrip (e.name.getD [])))).isEmpty = true
      · rw [if_pos hcan] at h
        injection h with h1
        injection h1 with h2 h3
        subst h2
        subst h3
        refine ⟨fun c g hg => hg, rfl, rfl, rfl, rfl, rfl, fun ρ _ => rfl,
          fun o ho => Or.inl ho, Or.inl ⟨?_, rfl, rfl⟩⟩
        unfold keptB canonOf rawName
        rw [hcan]
        simp
      · rw [if_neg hcan] at h
        cases hlk : lookupIngredient
            (upsertIngredient st
              (canonicalize_ingredient (some (pyStrip (e.name.getD []))))
              (display_name_for_ingredient (some (pyStrip (e.name.getD [])))))
            (canonicalize_ingredient (some (pyStrip (e.name.getD [])))) with
        | none =>
          rw [hlk] at h
          cases h
        | some row =>
          rw [hlk] at h
          injection h with h1
          injection h1 with h2 h3
          subst h2
          subst h3
          have hingfr := upsertIngredient_frame st
            (canonicalize_ingredient (some (pyStrip (e.name.getD []))))
            (display_name_for_ingredient (some (pyStrip (e.name.getD []))))
          have hobsfr := upsertObservation_frame
            (upsertIngredient st
              (canonicalize_ingredient (some (pyStrip (e.name.getD []))))
              (display_name_for_ingredient (some (pyStrip (e.name.getD [])))))
            runId itemId row.ingredient_id (round3 (max 0 (min 1 q))) now
          have hq : confQ e = q := by
            unfold confQ
            cases hc : e.confidence with
            | none =>
              rw [hc] at hconf
              injection hconf with hh
            | some v =>
              cases v with
              | num q' =>
                rw [hc] at hconf
                injection hconf with hh
              | bad =>
                rw [hc] at hconf
                cases hconf
          refine ⟨?_, ?_, ?_, ?_, ?_, ?_, ?_, ?_, Or.inr ⟨?_, row.ingredient_id, ?_, ?_⟩⟩
          · intro c g hg
            rw [resolveId_eq_of_ingredients_eq hobsfr.1]
            exact resolveId_upsertIngredient _ _ hg
          · rw [hobsfr.2.1, hingfr.2.1]
          · rw [hobsfr.2.2.1, hingfr.2.2.1]
          · rw [hobsfr.2.2.2.1, hingfr.2.2.2.1]
          · rw [hobsfr.2.2.2.2.1, hingfr.2.2.2.2.1]
          · rw [hobsfr.2.2.2.2.2.1, hingfr.2.2.2.2.2]
          · intro ρ hρ
            rw [obsForRun_upsertObservation_ne _ _ _ _ _ _ _ hρ]
            unfold obsForRun
            rw [hingfr.1]
          · intro o ho
            rcases upsertObservation_mem_inv _ _ _ _ _ _ _ ho with hmem | hconf'
            · rw [hingfr.1] at hmem
              exact Or.inl hmem
            · exact Or.inr ⟨q, hconf'⟩
          · unfold keptB canonOf rawName
            rw [List.isEmpty_eq_false.2 (fun hh => hname (by rw [hh]; rfl)),
                List.isEmpty_eq_false.2 (fun hh => hcan (by rw [hh]; rfl))]
            rfl
          · rw [resolveId_eq_of_ingredients_eq hobsfr.1]
            unfold canonOf rawName resolveId
            rw [hlk]
            rfl
          · rw [hq]
            rfl


theorem ingFold_spec (runId : Nat) (itemId : Int) (now : Nat) :
    ∀ (entries : List IngredientEntry) (st : State) (seen : List (Nat × ℚ))
      (st' : State) (seen' : List (Nat × ℚ)),
    foldE (processIngredient runId itemId now) (st, seen) entries = .ok (st', seen') →
      (∀ c g, resolveId st c = some g → resolveId st' c = some g)
      ∧ st'.links = st.links ∧ st'.runs = st.runs
      ∧ st'.restaurants = st.restaurants ∧ st'.menuItems = st.menuItems
      ∧ st'.nextRunId = st.nextRunId
      ∧ (∀ ρ, ρ ≠ runId → obsForRun st' ρ = obsForRun st ρ)
      ∧ (∀ o ∈ st'.observations, o ∈ st.observations ∨ storedConf o.confidence)
      ∧ ∃ tail, seen' = seen ++ tail
          ∧ List.Forall₂ (fun e (p : Nat × ℚ) =>
              resolveId st' (canonOf e) = some p.1 ∧ p.2 = clamp01 (confQ e))
              (keptList entries) tail := by
  intro entries
  induction entries with
  | nil =>
    intro st seen st' seen' h
    injection h with h1
    injection h1 with h2 h3
    subst h2
    subst h3
    exact ⟨fun c g hg => hg, rfl, rfl, rfl, rfl, rfl, fun ρ _ => rfl,
      fun o ho => Or.inl ho, [], (List.append_nil _).symm, List.Forall₂.nil⟩
  | cons e rest ih =>
    intro st seen st' seen' h
    rw [foldE] at h
    cases hstep : processIngredient runId itemId now (st, seen) e with
    | error err =>
      rw [hstep] at h
      cases h
    | ok acc₁ =>
      rw [hstep] at h
      obtain ⟨st₁, seen₁⟩ := acc₁
      obtain ⟨hstab, hlinks, hruns, hrst, hmenu, hnrun, hobs, hc4, hkept⟩ :=
        processIngredient_ok_spec _ _ _ _ _ _ _ _ hstep
      obtain ⟨ihstab, ihlinks, ihruns, ihrst, ihmenu, ihnrun, ihobs, ihc4,
        tail, htail, hfa⟩ := ih st₁ seen₁ st' seen' h
      refine ⟨fun c g hg => ihstab c g (hstab c g hg),
        by rw [ihlinks, hlinks], by rw [ihruns, hruns],
        by rw [ihrst, hrst], by rw [ihmenu, hmenu],
        by rw [ihnrun, hnrun],
        fun ρ hρ => by rw [ihobs ρ hρ, hobs ρ hρ],
        fun o ho => ?_, ?_⟩
      · rcases ihc4 o ho with hmem | hst
        · rcases hc4 o hmem with hmem2 | hst2
          · exact Or.inl hmem2
          · exact Or.inr hst2
        · exact Or.inr hst
      · rcases hkept with ⟨hkb, hsteq, hseq⟩ | ⟨hkb, g, hres, hseq⟩
        · subst hsteq
          subst hseq
          refine ⟨tail, htail, ?_⟩
          unfold keptList
          rw [List.filter_cons, hkb]
          exact hfa
        · refine ⟨(g, clamp01 (confQ e)) :: tail, ?_, ?_⟩
          · rw [htail, hseq, List.append_assoc]
            rfl
          · unfold keptList
            rw [List.filter_cons, hkb]
            simp only [if_true]
            exact List.Forall₂.cons ⟨ihstab _ g hres, rfl⟩ hfa


theorem linkFold_post (iid : Int) :
    ∀ (seen : List (Nat × ℚ)) (s s' : State),
    foldE (insertLinkRounded iid) s seen = .ok s' →
      s'.links = s.links ++ seen.map (fun p =>
        ({ item_id := iid, ingredient_id := p.1,
           confidence := round3 p.2 } : LinkRow))
      ∧ s'.ingredients = s.ingredients ∧ s'.observations = s.observations
      ∧ s'.runs = s.runs ∧ s'.restaurants = s.restaurants
      ∧ s'.menuItems = s.menuItems ∧ s'.nextRunId = s.nextRunId := by
  intro seen
  induction seen with
  | nil =>
    intro s s' h
    injection h with h1
    subst h1
    exact ⟨(List.append_nil _).symm, rfl, rfl, rfl, rfl, rfl, rfl⟩
  | cons p rest ih =>
    intro s s' h
    rw [foldE] at h
    cases hstep : insertLinkRounded iid s p with
    | error err =>
      rw [hstep] at h
      cases h
    | ok s₁ =>
      rw [hstep] at h
      unfold insertLinkRounded at hstep
      obtain ⟨hing, hobs, hruns, hrst, hmenu, hnrun, hning, hlinks⟩ :=
        insertLink_frame _ _ _ _ _ hstep
      obtain ⟨ihlinks, ihing, ihobs, ihruns, ihrst, ihmenu, ihnrun⟩ := ih s₁ s' h
      refine ⟨?_, by rw [ihing, hing], by rw [ihobs, hobs],
        by rw [ihruns, hruns], by rw [ihrst, hrst], by rw [ihmenu, hmenu],
        by rw [ihnrun, hnrun]⟩
      rw [ihlinks, hlinks, List.map_cons, List.append_assoc]
      rfl

theorem linkFold_ok_chars (iid : Int) :
    ∀ (seen : List (Nat × ℚ)) (s s' : State),
    foldE (insertLinkRounded iid) s seen = .ok s' →
      (∀ p ∈ seen, s.links.any (fun l =>
          l.item_id == iid && l.ingredient_id == p.1) = false)
      ∧ (seen.map Prod.fst).Nodup := by
  intro seen
  induction seen with
  | nil =>
    intro s s' _
    exact ⟨fun p hp => absurd hp (List.not_mem_nil p), List.nodup_nil⟩
  | cons p rest ih =>
    intro s s' h
    rw [foldE] at h
    cases hstep : insertLinkRounded iid s p with
    | error err =>
      rw [hstep] at h
      cases h
    | ok s₁ =>
      rw [hstep] at h
      unfold insertLinkRounded insertLink at hstep
      by_cases hany : s.links.any (fun l =>
          l.item_id == iid && l.ingredient_id == p.1) = true
      · rw [if_pos hany] at hstep
        cases hstep
      · rw [if_neg hany] at hstep
        injection hstep with hs₁
        subst hs₁
        obtain ⟨hrest, hnodup⟩ := ih _ s' h
        have hanyf : s.links.any (fun l =>
            l.item_id == iid && l.ingredient_id == p.1) = false :=
          Bool.eq_false_iff.2 hany
        refine ⟨?_, ?_⟩
        · intro p' hp'
          rcases List.mem_cons.1 hp' with rfl | hp'
          · exact hanyf
          · have hh := hrest p' hp'
            simp only [List.any_append] at hh
            exact (Bool.or_eq_false_iff.1 hh).1
        · refine List.nodup_cons.2 ⟨?_, hnodup⟩
          intro hmem
          obtain ⟨p', hp', hfst⟩ := List.mem_map.1 hmem
          have hh := hrest p' hp'
          simp only [List.any_append] at hh
          have hrow := (Bool.or_eq_false_iff.1 hh).2
          simp only [List.any_cons, List.any_nil, Bool.or_false] at hrow
          rw [hfst] at hrow
          simp at hrow

theorem linkFold_ok_of_nodup (iid : Int) :
    ∀ (seen : List (Nat × ℚ)) (s : State),
    (seen.map Prod.fst).Nodup →
    (∀ p ∈ seen, s.links.any (fun l =>
        l.item_id == iid && l.ingredient_id == p.1) = false) →
    ∃ s', foldE (insertLinkRounded iid) s seen = .ok s' := by
  intro seen
  induction seen with
  | nil =>
    intro s _ _
    exact ⟨s, rfl⟩
  | cons p rest ih =>
    intro s hnd hcl
    have hhead := hcl p (List.mem_cons_self p rest)
    have hstep : insertLinkRounded iid s p
        = .ok { s with links := s.links ++
            [{ item_id := iid, ingredient_id := p.1,
               confidence := round3 p.2 }] } := by
      unfold insertLinkRounded insertLink
      rw [if_neg (by rw [hhead]; exact Bool.false_ne_true)]
    obtain ⟨hne, hnd'⟩ := List.nodup_cons.1 hnd
    have hclean : ∀ p' ∈ rest, ({ s with links := s.links ++
        [{ item_id := iid, ingredient_id := p.1,
           confidence := round3 p.2 }] } : State).links.any (fun l =>
          l.item_id == iid && l.ingredient_id == p'.1) = false := by
      intro p' hp'
      have hbase := hcl p' (List.mem_cons_of_mem p hp')
      show ((s.links ++ _).any _) = false
      rw [List.any_append, Bool.or_eq_false_iff]
      refine ⟨hbase, ?_⟩
      simp only [List.any_cons, List.any_nil, Bool.or_false]
      have hne' : (p.1 == p'.1) = false := by
        rw [beq_eq_false_iff_ne]
        intro hh
        apply hne
        rw [hh]
        exact List.mem_map_of_mem Prod.fst hp'
      simp [hne']
    obtain ⟨s', hs'⟩ := ih _ hnd' hclean
    refine ⟨s', ?_⟩
    rw [foldE, hstep]
    exact hs'


theorem obsForRun_eq_of_observations_eq {st st' : State}
    (h : st'.observations = st.observations) (ρ : Nat) :
    obsForRun st' ρ = obsForRun st ρ := by
  unfold obsForRun
  rw [h]

theorem linksFor_eq_of_links_eq {st st' : State}
    (h : st'.links = st.links) (iid : Int) :
    linksFor st' iid = linksFor st iid := by
  unfold linksFor
  rw [h]

theorem processResult_ok_spec (runId : Nat) (now : Nat) (st : State)
    (r : ExtractionResult) (st' : State)
    (h : processResult runId now st r = .ok st') :
    ∃ iid rid, pyInt r.item_id = .ok iid ∧ pyInt r.restaurant_id = .ok rid
    ∧ (∀ c g, resolveId st c = some g → resolveId st' c = some g)
    ∧ st'.runs = st.runs ∧ st'.nextRunId = st.nextRunId
    ∧ (∀ ρ, ρ ≠ runId → obsForRun st' ρ = obsForRun st ρ)
    ∧ (∀ o ∈ st'.observations, o ∈ st.observations ∨ storedConf o.confidence)
    ∧ (∀ l ∈ st'.links, l ∈ st.links ∨ storedConf l.confidence)
    ∧ (∀ iid', iid' ≠ iid → linksFor st' iid' = linksFor st iid')
    ∧ linksFor st' iid = expectedLinkRows st' iid r
    ∧ (∀ e ∈ keptEntries r, (resolveId st' (canonOf e)).isSome)
    ∧ ((keptEntries r).map (fun e => (resolveId st' (canonOf e)).getD 0)).Nodup
    ∧ (∀ e ∈ r.ingredients.getD [], rawName e ≠ [] →
        e.confidence ≠ some PyNum.bad) := by
  unfold processResult at h
  cases hid : r.item_id with
  | bad =>
    rw [hid] at h
    simp [pyInt] at h
  | int iidv =>
    cases hrid : r.restaurant_id with
    | bad =>
      rw [hid, hrid] at h
      simp [pyInt] at h
    | int ridv =>
      rw [hid, hrid] at h
      dsimp only [pyInt] at h
      cases hfold : foldE (processIngredient runId iidv now)
          (upsertMenuItem (upsertRestaurant st ridv now) iidv ridv
            (r.item_name.getD []) r.reasoning now, [])
          (r.ingredients.getD []) with
      | error err =>
        rw [hfold] at h
        cases h
      | ok acc =>
        rw [hfold] at h
        obtain ⟨st₃, seen⟩ := acc
        obtain ⟨hrfr1, hrfr2, hrfr3, hrfr4, hrfr5, hrfr6⟩ :=
          upsertRestaurant_frame st ridv now
        obtain ⟨hmfr1, hmfr2, hmfr3, hmfr4, hmfr5, hmfr6⟩ :=
          upsertMenuItem_frame (upsertRestaurant st ridv now) iidv ridv
            (r.item_name.getD []) r.reasoning now
        obtain ⟨gstab, glinks, gruns, grst, gmenu, gnrun, gobs, gc4,
          tail, htail, hfa⟩ := ingFold_spec runId iidv now _ _ _ _ _ hfold
        rw [List.nil_append] at htail
        subst htail
        obtain ⟨plinks, ping, pobs, pruns, prst, pmenu, pnrun⟩ :=
          linkFold_post iidv _ _ _ h
        obtain ⟨hanyf, hnodup⟩ := linkFold_ok_chars iidv _ _ _ h
        have hQing : (upsertMenuItem (upsertRestaurant st ridv now) iidv ridv
            (r.item_name.getD []) r.reasoning now).ingredients = st.ingredients := by
          rw [hmfr1, hrfr1]
        have hQobs : (upsertMenuItem (upsertRestaurant st ridv now) iidv ridv
            (r.item_name.getD []) r.reasoning now).observations = st.observations := by
          rw [hmfr2, hrfr2]
        have hQlinks : (upsertMenuItem (upsertRestaurant st ridv now) iidv ridv
            (r.item_name.getD []) r.reasoning now).links = st.links := by
          rw [hmfr3, hrfr3]
        have hQruns : (upsertMenuItem (upsertRestaurant st ridv now) iidv ridv
            (r.item_name.getD []) r.reasoning now).runs = st.runs := by
          rw [hmfr4, hrfr4]
        have hQnrun : (upsertMenuItem (upsertRestaurant st ridv now) iidv ridv
            (r.item_name.getD []) r.reasoning now).nextRunId = st.nextRunId := by
          rw [hmfr5, hrfr5]
        have hing' : st'.ingredients = st₃.ingredients := by
          rw [ping]
          rfl
        have hobs' : st'.observations = st₃.observations := by
          rw [pobs]
          rfl
        have hres3' : ∀ c, resolveId st' c = resolveId st₃ c :=
          resolveId_eq_of_ingredients_eq hing'
        have hrowmap : ∀ p ∈ seen,
            ({ item_id := iidv, ingredient_id := p.1,
               confidence := round3 p.2 } : LinkRow).item_id = iidv :=
          fun p _ => rfl
        refine ⟨iidv, ridv, rfl, rfl, ?_, ?_, ?_, ?_, ?_, ?_,
          ?_, ?_, ?_, ?_, ?_⟩
        · intro c g hg
          rw [hres3' c]
          apply gstab
          rw [resolveId_eq_of_ingredients_eq hQing]
          exact hg
        · rw [pruns]
          show st₃.runs = st.runs
          rw [gruns, hQruns]
        · rw [pnrun]
          show st₃.nextRunId = st.nextRunId
          rw [gnrun, hQnrun]
        · intro ρ hρ
          rw [obsForRun_eq_of_observations_eq hobs', gobs ρ hρ,
              obsForRun_eq_of_observations_eq hQobs]
        · intro o ho
          rw [hobs'] at ho
          rcases gc4 o ho with hmem | hst
          · rw [hQobs] at hmem
            exact Or.inl hmem
          · exact Or.inr hst
        · intro l hl
          rw [plinks] at hl
          rcases List.mem_append.1 hl with hl | hl
          · rw [show (deleteLinks st₃ iidv).links
                = st₃.links.filter (fun x => !(x.item_id == iidv)) from rfl] at hl
            have hmem := (List.mem_filter.1 hl).1
            rw [glinks, hQlinks] at hmem
            exact Or.inl hmem
          · obtain ⟨p, hp, hrow⟩ := List.mem_map.1 hl
            obtain ⟨e, _, _, hconf⟩ := forall₂_mem_right hfa p hp
            right
            refine ⟨confQ e, ?_⟩
            rw [← hrow]
            show round3 p.2 = round3 (clamp01 (confQ e))
            rw [hconf]
        · intro iid' hne
          unfold linksFor
          rw [plinks, List.filter_append]
          have hmapnil : (seen.map (fun p =>
              ({ item_id := iidv, ingredient_id := p.1,
                 confidence := round3 p.2 } : LinkRow))).filter
              (fun l => l.item_id == iid') = [] := by
            rw [List.filter_eq_nil_iff]
            intro a ha
            obtain ⟨p, _, hrow⟩ := List.mem_map.1 ha
            rw [← hrow]
            show ¬(iidv == iid') = true
            rw [beq_iff_eq]
            exact fun hh => hne hh.symm
          rw [hmapnil, List.append_nil]
          show ((st₃.links.filter (fun x => !(x.item_id == iidv))).filter
            (fun l => l.item_id == iid')) = _
          rw [List.filter_comm]
          rw [glinks, hQlinks]
          have : List.filter (fun x => !(x.item_id == iidv))
              (st.links.filter (fun l => l.item_id == iid'))
              = st.links.filter (fun l => l.item_id == iid') := by
            rw [List.filter_eq_self]
            intro a ha
            have ha' := (List.mem_filter.1 ha).2
            rw [beq_iff_eq] at ha'
            show (!(a.item_id == iidv)) = true
            rw [Bool.not_eq_eq_eq_not]
            show (a.item_id == iidv) = false
            rw [beq_eq_false_iff_ne, ha']
            exact fun hh => hne hh
          rw [this]
        · unfold linksFor
          rw [plinks, List.filter_append]
          have hnil1 : ((deleteLinks st₃ iidv).links).filter
              (fun l => l.item_id == iidv) = [] := by
            show ((st₃.links.filter (fun x => !(x.item_id == iidv))).filter
              (fun l => l.item_id == iidv)) = []
            rw [List.filter_eq_nil_iff]
            intro a ha
            have h2 := (List.mem_filter.1 ha).2
            simp only [Bool.not_eq_eq_eq_not, Bool.not_true] at h2
            simp [h2]
          have hself : (seen.map (fun p =>
              ({ item_id := iidv, ingredient_id := p.1,
                 confidence := round3 p.2 } : LinkRow))).filter
              (fun l => l.item_id == iidv) = seen.map (fun p =>
              ({ item_id := iidv, ingredient_id := p.1,
                 confidence := round3 p.2 } : LinkRow)) := by
            rw [List.filter_eq_self]
            intro a ha
            obtain ⟨p, _, hrow⟩ := List.mem_map.1 ha
            rw [← hrow]
            exact beq_self_eq_true iidv
          rw [hnil1, hself, List.nil_append]
          unfold expectedLinkRows keptEntries
          symm
          apply forall₂_map_eq _ _ hfa
          intro e p hR
          obtain ⟨hres, hconf⟩ := hR
          show ({ item_id := iidv,
                  ingredient_id := (resolveId st' (canonOf e)).getD 0,
                  confidence := round3 (clamp01 (confQ e)) } : LinkRow)
              = { item_id := iidv, ingredient_id := p.1,
                  confidence := round3 p.2 }
          rw [hres3' (canonOf e), hres, hconf]
          rfl
        · intro e he
          unfold keptEntries at he
          obtain ⟨p, _, hres, _⟩ := forall₂_mem_left hfa e he
          rw [hres3' (canonOf e), hres]
          rfl
        · have hmapeq : (keptEntries r).map
              (fun e => (resolveId st' (canonOf e)).getD 0)
              = seen.map Prod.fst := by
            unfold keptEntries
            apply forall₂_map_eq _ _ hfa
            intro e p hR
            rw [hres3' (canonOf e), hR.1]
            rfl
          rw [hmapeq]
          exact hnodup
        · intro e he hne hbad
          obtain ⟨err, herr⟩ := foldE_error_of_mem
            (processIngredient runId iidv now)
            (fun e => rawName e ≠ [] ∧ e.confidence = some PyNum.bad)
            (fun acc e hP => ⟨.valueError, by
              obtain ⟨h1, h2⟩ := hP
              cases acc with
              | mk a b => exact processIngredient_badconf_error _ _ _ _ _ _ h1 h2⟩)
            (r.ingredients.getD []) ⟨e, he, hne, hbad⟩
            (upsertMenuItem (upsertRestaurant st ridv now) iidv ridv
              (r.item_name.getD []) r.reasoning now, [])
          rw [herr] at hfold
          cases hfold


theorem runFold_spec (runId : Nat) (now : Nat)
    (results : List ExtractionResult) :
    ∀ (s s' : State),
    foldE (processResult runId now) s results = .ok s' →
      (∀ c g, resolveId s c = some g → resolveId s' c = some g)
      ∧ s'.runs = s.runs ∧ s'.nextRunId = s.nextRunId
      ∧ (∀ ρ, ρ ≠ runId → obsForRun s' ρ = obsForRun s ρ)
      ∧ (∀ o ∈ s'.observations, o ∈ s.observations ∨ storedConf o.confidence)
      ∧ (∀ l ∈ s'.links, l ∈ s.links ∨ storedConf l.confidence)
      ∧ (∀ iid : Int, lastFor results iid = none →
          linksFor s' iid = linksFor s iid)
      ∧ (∀ (iid : Int) (r : ExtractionResult), lastFor results iid = some r →
          linksFor s' iid = expectedLinkRows s' iid r
          ∧ ∀ e ∈ keptEntries r, (resolveId s' (canonOf e)).isSome) := by
  induction results using List.reverseRecOn with
  | nil =>
    intro s s' h
    injection h with h1
    subst h1
    refine ⟨fun c g hg => hg, rfl, rfl, fun ρ _ => rfl, fun o ho => Or.inl ho,
      fun l hl => Or.inl hl, fun iid _ => rfl, fun iid r hr => ?_⟩
    unfold lastFor at hr
    simp at hr
  | append_singleton rs r ih =>
    intro s s' h
    rw [foldE_append] at h
    cases hmid : foldE (processResult runId now) s rs with
    | error err =>
      rw [hmid] at h
      cases h
    | ok smid =>
      rw [hmid] at h
      dsimp only at h
      rw [foldE] at h
      cases hstep : processResult runId now smid r with
      | error err =>
        rw [hstep] at h
        cases h
      | ok s₁ =>
        rw [hstep] at h
        injection h with h1
        subst h1
        obtain ⟨istab, iruns, inrun, iobs, ic4o, ic4l, ifr, ilast⟩ := ih s smid hmid
        obtain ⟨iidr, ridr, hpy1, hpy2, pstab, pruns, pnrun, pobs, pc4o, pc4l,
          pfr, psync, psome, pnodup, pconf⟩ :=
          processResult_ok_spec runId now smid r _ hstep
        have hcar : carries r iidr = true := by
          unfold carries
          rw [beq_iff_eq]
          cases hc : r.item_id with
          | bad =>
            rw [hc] at hpy1
            cases hpy1
          | int n =>
            rw [hc] at hpy1
            injection hpy1 with hh
            rw [hh]
        refine ⟨fun c g hg => pstab c g (istab c g hg),
          by rw [pruns, iruns], by rw [pnrun, inrun],
          fun ρ hρ => by rw [pobs ρ hρ, iobs ρ hρ],
          fun o ho => ?_, fun l hl => ?_, ?_, ?_⟩
        · rcases pc4o o ho with hm | hs
          · rcases ic4o o hm with hm2 | hs2
            exacts [Or.inl hm2, Or.inr hs2]
          · exact Or.inr hs
        · rcases pc4l l hl with hm | hs
          · rcases ic4l l hm with hm2 | hs2
            exacts [Or.inl hm2, Or.inr hs2]
          · exact Or.inr hs
        · intro iid hnone
          obtain ⟨hnone2, hcf⟩ := lastFor_none_append hnone
          have hne : iid ≠ iidr := by
            intro hh
            rw [hh] at hcf
            rw [hcf] at hcar
            cases hcar
          rw [pfr iid hne, ifr iid hnone2]
        · intro iid r₀ hsome
          by_cases hciid : carries r iid = true
          · rw [lastFor_append_carries hciid] at hsome
            injection hsome with hr₀
            subst hr₀
            have hiid : iid = iidr := by
              rw [carries_iff] at hciid hcar
              rw [hciid] at hcar
              injection hcar with hh
            subst hiid
            exact ⟨psync, psome⟩
          · have hcf : carries r iid = false := Bool.eq_false_iff.2 hciid
            rw [lastFor_append_not hcf] at hsome
            have hne : iid ≠ iidr := by
              intro hh
              rw [hh] at hcf
              rw [hcf] at hcar
              cases hcar
            obtain ⟨isync, isome⟩ := ilast iid r₀ hsome
            constructor
            · rw [pfr iid hne, isync]
              unfold expectedLinkRows
              apply List.map_congr_left
              intro e he
              obtain ⟨g, hg⟩ := Option.isSome_iff_exists.1 (isome e he)
              rw [hg, pstab _ _ hg]
            · intro e he
              obtain ⟨g, hg⟩ := Option.isSome_iff_exists.1 (isome e he)
              rw [pstab _ _ hg]
              rfl


theorem write_run_ok (amb : AmbientConfig) (st : State)
    (results : List ExtractionResult) (mn pv plv : Option PyStr) (now : Nat)
    (rid : Nat) (st' : State)
    (h : write_run amb st results mn pv plv now = .ok (rid, st')) :
    rid = st.nextRunId
    ∧ foldE (processResult st.nextRunId now)
        (insertRunRow st mn (pv.or amb.prompt_version)
          (plv.or amb.pipeline_version)) results = .ok st' := by
  unfold write_run at h
  cases hf : foldE (processResult st.nextRunId now)
      (insertRunRow st mn (pv.or amb.prompt_version)
        (plv.or amb.pipeline_version)) results with
  | error e =>
    rw [hf] at h
    cases h
  | ok st₂ =>
    rw [hf] at h
    injection h with h1
    injection h1 with h2 h3
    subst h3
    exact ⟨h2.symm, rfl⟩

/-! ## Claim C1 -/

/-- C1: after a successful `write_run`, the snapshot table holds, for every
`item_id` carried by the batch, exactly one row per accumulated
`(ingredient_id, confidence)` pair of the last result in the batch carrying
that item — ids resolved in the final store, confidences clamped and
rounded — and no row from any earlier run or earlier occurrence survives. -/
theorem C1_snapshot_equals_last_result (amb : AmbientConfig) (st : State)
    (results : List ExtractionResult) (mn pv plv : Option PyStr) (now : Nat)
    (rid : Nat) (st' : State) (iid : Int) (r : ExtractionResult)
    (h : write_run amb st results mn pv plv now = .ok (rid, st'))
    (hlast : lastFor results iid = some r) :
    linksFor st' iid = expectedLinkRows st' iid r
    ∧ ∀ e ∈ keptEntries r, (resolveId st' (canonOf e)).isSome := by
  obtain ⟨-, hfold⟩ := write_run_ok amb st results mn pv plv now rid st' h
  exact (runFold_spec st.nextRunId now results _ _ hfold).2.2.2.2.2.2.2 iid r hlast

/-- Concrete one-item batch used by the C1 witness. -/
def c1DemoResult : ExtractionResult :=
  { item_id := .int 1, restaurant_id := .int 2, item_name := none,
    reasoning := none,
    ingredients := some
      [{ name := some (pyOfString "a"), confidence := none }] }

/-- Final store of the C1 witness run. -/
def c1DemoState : State :=
  { nextRunId := 2, nextIngId := 2,
    runs := [{ run_id := 1, model_name := none, prompt_version := none,
               pipeline_version := none }],
    restaurants := [{ restaurant_id := 2, name := none, updated_at := 7 }],
    menuItems := [{ item_id := 1, restaurant_id := 2, item_name := [],
                    reasoning := none, updated_at := 7 }],
    ingredients := [{ ingredient_id := 1, canonical_name := [97],
                      display_name := [65] }],
    observations := [{ run_id := 1, item_id := 1, ingredient_id := 1,
                       confidence := 0, created_at := 7 }],
    links := [{ item_id := 1, ingredient_id := 1, confidence := 0 }] }

/-- Concrete batch with confidences -0.2 and 1.7 used by the C4 witness. -/
def c4DemoResult : ExtractionResult :=
  { item_id := .int 1, restaurant_id := .int 2, item_name := none,
    reasoning := none,
    ingredients := some
      [{ name := some (pyOfString "a"),
         confidence := some (.num (mkRat (-2) 10)) },
       { name := some (pyOfString "b"),
         confidence := some (.num (mkRat 17 10)) }] }

/-- Final store of the C4 witness run. -/
def c4DemoState : State :=
  { nextRunId := 2, nextIngId := 3,
    runs := [{ run_id := 1, model_name := none, prompt_version := none,
               pipeline_version := none }],
    restaurants := [{ restaurant_id := 2, name := none, updated_at := 7 }],
    menuItems := [{ item_id := 1, restaurant_id := 2, item_name := [],
                    reasoning := none, updated_at := 7 }],
    ingredients := [{ ingredient_id := 1, canonical_name := [97],
                      display_name := [65] },
                    { ingredient_id := 2, canonical_name := [98],
                      display_name := [66] }],
    observations := [{ run_id := 1, item_id := 1, ingredient_id := 1,
                       confidence := 0, created_at := 7 },
                     { run_id := 1, item_id := 1, ingredient_id := 2,
                       confidence := 1, created_at := 7 }],
    links := [{ item_id := 1, ingredient_id := 1, confidence := 0 },
              { item_id := 1, ingredient_id := 2, confidence := 1 }] }

/-- Witness for C1 at a concrete one-item batch. -/
theorem C1_snapshot_equals_last_result_witness :
    write_run { prompt_version := none, pipeline_version := none } emptyState
      [c1DemoResult] none none none 7 = .ok (1, c1DemoState)
    ∧ linksFor c1DemoState 1 = expectedLinkRows c1DemoState 1 c1DemoResult :=
  ⟨by decide,
   (C1_snapshot_equals_last_result
     { prompt_version := none, pipeline_version := none } emptyState
     [c1DemoResult] none none none 7 1 c1DemoState 1 c1DemoResult
     (by decide) (by decide)).1⟩

/-! ## Claim C4 -/

/-- C4: every confidence stored into an Observation or CurrentLink row by a
successful `write_run` is of the form `round3 (clamp01 q)` — clamped to
`[0,1]` and then rounded to three decimals — and in particular the clamp
then round of `-0.2` is `0` and of `1.7` is `1`. -/
theorem C4_confidence_clamped_rounded :
    (∀ (amb : AmbientConfig) (st : State) (results : List ExtractionResult)
        (mn pv plv : Option PyStr) (now : Nat) (rid : Nat) (st' : State),
      write_run amb st results mn pv plv now = .ok (rid, st') →
        (∀ o ∈ st'.observations, o ∈ st.observations ∨ storedConf o.confidence)
        ∧ (∀ l ∈ st'.links, l ∈ st.links ∨ storedConf l.confidence))
    ∧ round3 (clamp01 (mkRat (-2) 10)) = 0
    ∧ round3 (clamp01 (mkRat 17 10)) = 1 := by
  refine ⟨?_, by decide, by decide⟩
  intro amb st results mn pv plv now rid st' h
  obtain ⟨-, hfold⟩ := write_run_ok amb st results mn pv plv now rid st' h
  obtain ⟨-, -, -, -, c4o, c4l, -, -⟩ := runFold_spec st.nextRunId now results _ _ hfold
  constructor
  · intro o ho
    rcases c4o o ho with hm | hs
    · exact Or.inl hm
    · exact Or.inr hs
  · intro l hl
    rcases c4l l hl with hm | hs
    · exact Or.inl hm
    · exact Or.inr hs

/-- Witness for C4 at a batch whose confidences are `-0.2` and `1.7`. -/
theorem C4_confidence_clamped_rounded_witness :
    write_run { prompt_version := none, pipeline_version := none } emptyState
      [c4DemoResult] none none none 7 = .ok (1, c4DemoState)
    ∧ (∀ o ∈ c4DemoState.observations,
        o ∈ emptyState.observations ∨ storedConf o.confidence) :=
  ⟨by decide,
   (C4_confidence_clamped_rounded.1
     { prompt_version := none, pipeline_version := none } emptyState
     [c4DemoResult] none none none 7 1 c4DemoState (by decide)).1⟩

/-! ## Replay lemmas for Claim C3 -/

/-- After the per-item DELETE, no link row with the item's id survives, so
every subsequent INSERT for that item is clean. -/
theorem deleteLinks_any_false (st : State) (iid : Int) (g : Nat) :
    (deleteLinks st iid).links.any (fun l =>
      l.item_id == iid && l.ingredient_id == g) = false := by
  rw [List.any_eq_false]
  intro l hl
  have h2 : (!(l.item_id == iid)) = true := (List.mem_filter.1 hl).2
  intro hcontra
  rw [Bool.and_eq_true] at hcontra
  rw [hcontra.1] at h2
  exact Bool.false_ne_true h2

/-- Mapping two pointwise-related lists with functions that agree on related
pairs (membership available) gives equal lists. -/
theorem forall₂_map_eq_mem {α β γ : Type} {R : α → β → Prop}
    (f : α → γ) (g : β → γ) :
    ∀ {l₁ : List α} {l₂ : List β}, List.Forall₂ R l₁ l₂ →
      (∀ a ∈ l₁, ∀ b, R a b → f a = g b) → l₁.map f = l₂.map g := by
  intro l₁ l₂ h
  induction h with
  | nil => intro _; rfl
  | cons hab htl ih =>
    intro hfg
    simp only [List.map_cons, List.cons.injEq]
    refine ⟨hfg _ (List.mem_cons_self _ _) _ hab, ?_⟩
    exact ih (fun a ha b hr => hfg a (List.mem_cons_of_mem _ ha) b hr)

/-- When the confidence coerces, `processIngredient` cannot fail: both skip
checks return the accumulator and the resolve after upsert always finds the
row. -/
theorem processIngredient_ok_of_float (runId : Nat) (itemId : Int) (now : Nat)
    (e : IngredientEntry) (q : ℚ) (acc : State × List (Nat × ℚ))
    (hq : pyFloat e.confidence = .ok q) :
    ∃ out, processIngredient runId itemId now acc e = .ok out := by
  unfold processIngredient
  dsimp only
  by_cases hname : (pyStrip (e.name.getD [])).isEmpty = true
  · rw [if_pos hname]
    exact ⟨acc, rfl⟩
  · rw [if_neg hname, hq]
    dsimp only
    by_cases hcan : (canonicalize_ingredient
        (some (pyStrip (e.name.getD [])))).isEmpty = true
    · rw [if_pos hcan]
      exact ⟨acc, rfl⟩
    · rw [if_neg hcan]
      obtain ⟨row, hrow⟩ := lookupIngredient_upsert acc.1
        (canonicalize_ingredient (some (pyStrip (e.name.getD []))))
        (display_name_for_ingredient (some (pyStrip (e.name.getD []))))
      rw [hrow]
      exact ⟨_, rfl⟩

/-- An entry that is not a kept name with unparseable confidence never makes
`processIngredient` fail. -/
theorem processIngredient_ok_of_conf (runId : Nat) (itemId : Int) (now : Nat)
    (e : IngredientEntry)
    (hok : rawName e ≠ [] → e.confidence ≠ some PyNum.bad)
    (acc : State × List (Nat × ℚ)) :
    ∃ out, processIngredient runId itemId now acc e = .ok out := by
  cases hc : e.confidence with
  | none =>
    exact processIngredient_ok_of_float runId itemId now e 0 acc (by rw [hc]; rfl)
  | some v =>
    cases v with
    | num q =>
      exact processIngredient_ok_of_float runId itemId now e q acc (by rw [hc]; rfl)
    | bad =>
      by_cases hraw : rawName e = []
      · have hraw2 : pyStrip (e.name.getD []) = [] := hraw
        refine ⟨acc, ?_⟩
        unfold processIngredient
        dsimp only
        rw [hraw2]
        rfl
      · exact absurd hc (hok hraw)

/-- The ingredient loop succeeds on any list of entries free of parse-failing
confidences, from any starting accumulator. -/
theorem ingFold_ok_of_conf (runId : Nat) (itemId : Int) (now : Nat) :
    ∀ (entries : List IngredientEntry),
    (∀ e ∈ entries, rawName e ≠ [] → e.confidence ≠ some PyNum.bad) →
    ∀ acc, ∃ out, foldE (processIngredient runId itemId now) acc entries = .ok out := by
  intro entries
  induction entries with
  | nil =>
    intro _ acc
    exact ⟨acc, rfl⟩
  | cons e rest ih =>
    intro hok acc
    obtain ⟨acc₁, hstep⟩ := processIngredient_ok_of_conf runId itemId now e
      (hok e (List.mem_cons_self e rest)) acc
    obtain ⟨out, hrest⟩ := ih (fun x hx => hok x (List.mem_cons_of_mem e hx)) acc₁
    exact ⟨out, by rw [foldE, hstep]; exact hrest⟩

/-- A result that succeeded once succeeds again on any later store in which
all its persisted canonical keys still resolve: the replayed per-item fold
yields the same distinct ingredient ids, and the fresh DELETE makes every
snapshot INSERT clean. -/
theorem processResult_replay (rid₁ now₁ rid₂ now₂ : Nat)
    (s₁ s₁' s₂ : State) (r : ExtractionResult)
    (h : processResult rid₁ now₁ s₁ r = .ok s₁')
    (hres : ∀ c g, resolveId s₁' c = some g → resolveId s₂ c = some g) :
    ∃ s₂', processResult rid₂ now₂ s₂ r = .ok s₂' := by
  obtain ⟨iid, ridv, hpy1, hpy2, _, _, _, _, _, _, _, _, psome, pnodup, pconf⟩ :=
    processResult_ok_spec rid₁ now₁ s₁ r s₁' h
  unfold processResult
  cases hc : r.item_id with
  | bad =>
    rw [hc] at hpy1
    cases hpy1
  | int n =>
    rw [hc] at hpy1
    injection hpy1 with hn
    subst hn
    cases hc2 : r.restaurant_id with
    | bad =>
      rw [hc2] at hpy2
      cases hpy2
    | int m =>
      dsimp only [pyInt]
      obtain ⟨out, hfold₂⟩ := ingFold_ok_of_conf rid₂ n now₂
        (r.ingredients.getD []) pconf
        (upsertMenuItem (upsertRestaurant s₂ m now₂) n m
          (r.item_name.getD []) r.reasoning now₂, [])
      obtain ⟨st₃₂, seen₂⟩ := out
      obtain ⟨gstab₂, glinks₂, grun₂, grst₂, gmenu₂, gnr₂, gobs₂, gc4₂,
        tail₂, htail₂, hfa₂⟩ := ingFold_spec rid₂ n now₂ _ _ _ _ _ hfold₂
      rw [List.nil_append] at htail₂
      subst htail₂
      have hing : (upsertMenuItem (upsertRestaurant s₂ m now₂) n m
          (r.item_name.getD []) r.reasoning now₂).ingredients = s₂.ingredients := by
        rw [(upsertMenuItem_frame _ _ _ _ _ _).1, (upsertRestaurant_frame _ _ _).1]
      have hmap : (keptEntries r).map
          (fun e => (resolveId s₁' (canonOf e)).getD 0) = seen₂.map Prod.fst := by
        unfold keptEntries
        apply forall₂_map_eq_mem _ _ hfa₂
        intro e he p hR
        obtain ⟨g, hg⟩ := Option.isSome_iff_exists.1 (psome e he)
        have h2 : resolveId s₂ (canonOf e) = some g := hres _ _ hg
        have h3 : resolveId st₃₂ (canonOf e) = some g := by
          apply gstab₂
          rw [resolveId_eq_of_ingredients_eq hing]
          exact h2
        show (resolveId s₁' (canonOf e)).getD 0 = p.1
        rw [hR.1] at h3
        injection h3 with hpg
        rw [hg]
        exact hpg.symm
      have hnodup₂ : (seen₂.map Prod.fst).Nodup := hmap ▸ pnodup
      obtain ⟨s₂', hlink₂⟩ := linkFold_ok_of_nodup n seen₂ (deleteLinks st₃₂ n)
        hnodup₂ (fun p _ => deleteLinks_any_false st₃₂ n p.1)
      exact ⟨s₂', by rw [hfold₂]; exact hlink₂⟩

/-- Replaying a whole batch that once succeeded, from any store in which the
first run's resolutions survive, succeeds and still resolves them. -/
theorem runFold_replay (rid₁ now₁ rid₂ now₂ : Nat) :
    ∀ (results : List ExtractionResult) (s₁ s₁' s₂ : State),
    foldE (processResult rid₁ now₁) s₁ results = .ok s₁' →
    (∀ c g, resolveId s₁' c = some g → resolveId s₂ c = some g) →
    ∃ s₂', foldE (processResult rid₂ now₂) s₂ results = .ok s₂'
      ∧ (∀ c g, resolveId s₁' c = some g → resolveId s₂' c = some g) := by
  intro results
  induction results with
  | nil =>
    intro s₁ s₁' s₂ h hres
    injection h with h1
    subst h1
    exact ⟨s₂, rfl, hres⟩
  | cons r rs ih =>
    intro s₁ s₁' s₂ h hres
    rw [foldE] at h
    cases hstep : processResult rid₁ now₁ s₁ r with
    | error err =>
      rw [hstep] at h
      cases h
    | ok s₁a =>
      rw [hstep] at h
      have hstab := (runFold_spec rid₁ now₁ rs s₁a s₁' h).1
      obtain ⟨s₂a, hstep₂⟩ := processResult_replay rid₁ now₁ rid₂ now₂ s₁ s₁a s₂ r
        hstep (fun c g hg => hres c g (hstab c g hg))
      obtain ⟨-, -, -, -, pstab₂, -, -, -, -, -, -, -, -, -, -⟩ :=
        processResult_ok_spec rid₂ now₂ s₂ r s₂a hstep₂
      obtain ⟨s₂', hfold₂, hres₂⟩ := ih s₁a s₁' s₂a h
        (fun c g hg => pstab₂ c g (hres c g hg))
      exact ⟨s₂', by rw [foldE, hstep₂]; exact hfold₂, hres₂⟩

/-- C3: replaying a batch that succeeded, on the store the first call left,
succeeds, writes a second `extraction_runs` row under a fresh distinct
`run_id` (both rows present afterwards), leaves the first run's observation
history intact (two distinct per-run histories), and leaves the CurrentLink
snapshot of every item exactly as the first run left it: one row per distinct
ingredient of the last carrying result, never duplicated, never stale. -/
theorem C3_idempotent_replay (amb : AmbientConfig) (st0 : State)
    (results : List ExtractionResult) (mn pv plv : Option PyStr)
    (t₁ t₂ : Nat) (rid₁ : Nat) (st₁ : State)
    (h₁ : write_run amb st0 results mn pv plv t₁ = .ok (rid₁, st₁)) :
    ∃ rid₂ st₂, write_run amb st₁ results mn pv plv t₂ = .ok (rid₂, st₂)
      ∧ rid₂ ≠ rid₁
      ∧ (∃ row ∈ st₂.runs, row.run_id = rid₁)
      ∧ (∃ row ∈ st₂.runs, row.run_id = rid₂)
      ∧ obsForRun st₂ rid₁ = obsForRun st₁ rid₁
      ∧ (∀ iid : Int, linksFor st₂ iid = linksFor st₁ iid) := by
  obtain ⟨hrid, hfold₁⟩ := write_run_ok amb st0 results mn pv plv t₁ rid₁ st₁ h₁
  subst hrid
  obtain ⟨stab₁, runs₁, nrun₁, obsρ₁, -, -, fr₁, last₁⟩ :=
    runFold_spec st0.nextRunId t₁ results _ _ hfold₁
  have hnr : st₁.nextRunId = st0.nextRunId + 1 := nrun₁.trans rfl
  obtain ⟨st₂, hfold₂, hres₂⟩ := runFold_replay st0.nextRunId t₁
    st₁.nextRunId t₂ results
    (insertRunRow st0 mn (pv.or amb.prompt_version) (plv.or amb.pipeline_version))
    st₁
    (insertRunRow st₁ mn (pv.or amb.prompt_version) (plv.or amb.pipeline_version))
    hfold₁ (fun c g hg => hg)
  obtain ⟨stab₂, runs₂, nrun₂, obsρ₂, -, -, fr₂, last₂⟩ :=
    runFold_spec st₁.nextRunId t₂ results _ _ hfold₂
  refine ⟨st₁.nextRunId, st₂, ?_, ?_, ?_, ?_, ?_, ?_⟩
  · unfold write_run
    rw [hfold₂]
  · rw [hnr]
    omega
  · refine ⟨{ run_id := st0.nextRunId, model_name := mn,
              prompt_version := pv.or amb.prompt_version,
              pipeline_version := plv.or amb.pipeline_version }, ?_, rfl⟩
    rw [runs₂, (insertRunRow_frame st₁ mn (pv.or amb.prompt_version)
          (plv.or amb.pipeline_version)).2.2.2.2.2.2]
    apply List.mem_append_left
    rw [runs₁, (insertRunRow_frame st0 mn (pv.or amb.prompt_version)
          (plv.or amb.pipeline_version)).2.2.2.2.2.2]
    exact List.mem_append_right _ (List.mem_singleton_self _)
  · refine ⟨{ run_id := st₁.nextRunId, model_name := mn,
              prompt_version := pv.or amb.prompt_version,
              pipeline_version := plv.or amb.pipeline_version }, ?_, rfl⟩
    rw [runs₂, (insertRunRow_frame st₁ mn (pv.or amb.prompt_version)
          (plv.or amb.pipeline_version)).2.2.2.2.2.2]
    exact List.mem_append_right _ (List.mem_singleton_self _)
  · have hne : st0.nextRunId ≠ st₁.nextRunId := by
      rw [hnr]
      omega
    rw [obsρ₂ st0.nextRunId hne]
    exact obsForRun_eq_of_observations_eq
      (insertRunRow_frame st₁ mn (pv.or amb.prompt_version)
        (plv.or amb.pipeline_version)).2.1 st0.nextRunId
  · intro iid
    cases hlastc : lastFor results iid with
    | none =>
      rw [fr₂ iid hlastc]
      exact linksFor_eq_of_links_eq
        (insertRunRow_frame st₁ mn (pv.or amb.prompt_version)
          (plv.or amb.pipeline_version)).2.2.1 iid
    | some r =>
      obtain ⟨sync₂, -⟩ := last₂ iid r hlastc
      obtain ⟨sync₁, some₁⟩ := last₁ iid r hlastc
      rw [sync₂, sync₁]
      unfold expectedLinkRows
      apply List.map_congr_left
      intro e he
      obtain ⟨g, hg⟩ := Option.isSome_iff_exists.1 (some₁ e he)
      rw [hg, hres₂ _ _ hg]

/-- Witness for C3: replaying the concrete one-item batch on the store its
first run produced. -/
theorem C3_idempotent_replay_witness :
    ∃ rid₂ st₂, write_run { prompt_version := none, pipeline_version := none }
        c1DemoState [c1DemoResult] none none none 9 = .ok (rid₂, st₂)
      ∧ rid₂ ≠ 1
      ∧ (∃ row ∈ st₂.runs, row.run_id = 1)
      ∧ (∃ row ∈ st₂.runs, row.run_id = rid₂)
      ∧ obsForRun st₂ 1 = obsForRun c1DemoState 1
      ∧ (∀ iid : Int, linksFor st₂ iid = linksFor c1DemoState iid) :=
  C3_idempotent_replay { prompt_version := none, pipeline_version := none }
    emptyState [c1DemoResult] none none none 7 9 1 c1DemoState (by decide)

end FoodPipeline
